import Mathlib

/-!
GPU RAPTOR memory store

A shallow embedding of `modules/raptor/src/gpu/memory_store.cc`: the launch
geometry helpers, the per-configuration host and device buffers, the pooled
slot (`mem`) with its active-configuration switch, and the round-robin pool
(`memory_store`) with its scoped loans (`loaned_mem`).

Conventions of the embedding.

* C++ `int` / `int32_t` values are `Int`; a conversion to `unsigned int` is
  `to_uint32` and a wrapped `int32_t` result is `to_int32`.  Sizes and counts
  (`size_t`, `stop_id`, `route_id`) are `Nat`.
* A device or pinned buffer is the list of its bytes.  `cudaMemsetAsync` is
  applied in stream order, so a reset that has been enqueued is visible to
  everything that is enqueued or synchronised after it.
* Objects created by `std::make_unique` live in a heap (a list, the address is
  the position); a `unique_ptr` or raw pointer is an `Option Nat`, `none`
  being `nullptr`.
* Constants, types and tables declared in headers that are not part of the
  translated file are collected in `build_consts`.
-/

namespace motis.raptor

/-! ## Machine integers -/

/-- Wrap an integer into the range of `int32_t`. -/
def to_int32 (v : Int) : Int := (v + 2147483648) % 4294967296 - 2147483648

/-- Conversion of an integer value to `unsigned int`. -/
def to_uint32 (v : Int) : Nat := (v % 4294967296).toNat

/-- What a call can end in besides a value: a thrown exception or a step
the language leaves undefined (null dereference). -/
inductive failure where
  | exception (what : String)
  | undefined_behaviour
  deriving DecidableEq

/-! ## Criteria configurations and build-time constants -/

/-- The enumeration `raptor_criteria_config`: the default configuration and
the further enumerators, identified by their underlying value. -/
inductive raptor_criteria_config where
  | Default
  | Other (tag : Nat)
  deriving DecidableEq

/-- Values the translated file takes from headers outside of it. -/
structure build_consts where
  /-- The value of `sizeof(time)` -/
  sizeof_time : Nat
  /-- The constant `max_raptor_round`, also the length of the `result_` pointer array -/
  max_raptor_round : Nat
  /-- The value of `sizeof(additional_start)` -/
  sizeof_additional_start : Nat
  /-- The sentinel `invalid<decltype(additional_start_count_)>` -/
  invalid_add_start_count : Nat
  /-- The function `get_trait_size_for_criteria_config` -/
  get_trait_size_for_criteria_config : raptor_criteria_config → Nat
  /-- The enumerators listed by `RAPTOR_CRITERIA_CONFIGS_WO_DEFAULT` -/
  configs_wo_default : List raptor_criteria_config
  /-- The functions `get_gpu_launch_config()` and `get_mc_gpu_launch_config<VAL>()`:
  the (grid size, block size) pair of each configuration -/
  get_gpu_launch_config : raptor_criteria_config → Int × Int
  /-- Bit width of the unsigned type `memory_store::mem_idx` -/
  mem_idx_bits : Nat

/-! ## Launch geometry -/

/-- The CUDA type `dim3`: three `unsigned int` extents. -/
structure dim3 where
  x : Nat
  y : Nat
  z : Nat
  deriving DecidableEq

/-- The fields of `cudaDeviceProp` read by `get_launch_paramters`. -/
structure cudaDeviceProp where
  multiProcessorCount : Int
  maxThreadsPerMultiProcessor : Int
  deriving DecidableEq

structure kernel_launch_config where
  threads_per_block_ : dim3
  grid_ : dim3
  deriving DecidableEq

/-- The function `get_launch_paramters(prop, concurrency_per_device)`; the pair is
(threads per block, grid).  Integer division truncates as in C++. -/
def get_launch_paramters (prop : cudaDeviceProp) (concurrency_per_device : Int) :
    Except failure (dim3 × dim3) :=
  let block_dim_x : Int := 32
  let block_dim_y : Int := 32
  let block_size : Int := to_int32 (block_dim_x * block_dim_y)
  let max_blocks_per_sm : Int := Int.tdiv prop.maxThreadsPerMultiProcessor block_size
  if max_blocks_per_sm < 1 then
    .error (.exception "Require a to large Block size to be executed on one SM!")
  else
    let mp_count : Int := Int.tdiv prop.multiProcessorCount concurrency_per_device
    let num_blocks : Int := to_int32 (mp_count * max_blocks_per_sm)
    let threads_per_block : dim3 := ⟨to_uint32 block_dim_x, to_uint32 block_dim_y, 1⟩
    let grid : dim3 := ⟨to_uint32 num_blocks, 1, 1⟩
    .ok (threads_per_block, grid)

/-- The function `get_launch_config(params)` with `params = (grid_size, block_size)`.
`std::floor` of the already truncated quotient is the quotient itself. -/
def get_launch_config (params : Int × Int) : kernel_launch_config :=
  let grid_size := params.1
  let block_size := params.2
  { grid_ := ⟨to_uint32 grid_size, 1, 1⟩
    threads_per_block_ := ⟨32, to_uint32 (Int.tdiv block_size 32), 1⟩ }

/-- The part of `device_context` that the constructor computes: the device
id and one launch configuration per criteria configuration (the default one
first, then every enumerator of `RAPTOR_CRITERIA_CONFIGS_WO_DEFAULT`). -/
structure device_context where
  id_ : Nat
  launch_configs_ : List (raptor_criteria_config × kernel_launch_config)
  deriving DecidableEq

/-- The assignment `launch_configs_[c] = v` on the association list. -/
def assign {α : Type} (m : List (raptor_criteria_config × α)) (c : raptor_criteria_config)
    (v : α) : List (raptor_criteria_config × α) :=
  if m.any (fun e => e.1 == c) then m.map (fun e => if e.1 == c then (c, v) else e)
  else m ++ [(c, v)]

/-- The constructor `device_context::device_context(device_id, concurrency_per_device)`. -/
def device_context.ctor (k : build_consts) (device_id : Nat)
    (_concurrency_per_device : Int) : device_context :=
  let launch_configs_ :=
    assign [] raptor_criteria_config.Default
      (get_launch_config (k.get_gpu_launch_config raptor_criteria_config.Default))
  { id_ := device_id
    launch_configs_ := k.configs_wo_default.foldl
      (fun acc c => assign acc c (get_launch_config (k.get_gpu_launch_config c)))
      launch_configs_ }

/-! ## Host and device memory of one configuration -/

/-- The call `cudaMalloc(&p, n)`: a fresh allocation of `n` bytes.  Its content is
unspecified; every allocation made here is overwritten in full by the reset
that ends the constructor. -/
def cudaMalloc (n : Nat) : List Nat := List.replicate n 0

/-- The call `cudaMemsetAsync(p, value, count, s)` on the allocation `buf` that `p`
points to the start of. -/
def cudaMemsetAsync (buf : List Nat) (value : Nat) (count : Nat) : List Nat :=
  List.replicate (min count buf.length) value ++ buf.drop count

/-- The loop `for (k = 1; k < result_.size(); ++k) result_[k] = result_[k-1]
+ stop_count;` together with `result_.front()`: the positions of the round
pointers, counted in `time` entries from the start of the allocation. -/
def init_result_ptrs (stop_count : Nat) (front : Nat) : Nat → List Nat
  | 0 => []
  | n + 1 => front :: init_result_ptrs stop_count (front + stop_count) n

structure device_memory where
  stop_count_ : Nat
  route_count_ : Nat
  max_add_starts_ : Nat
  arrival_times_count_ : Nat
  /-- The pointers `result_[k]`, as entry offsets into `result_alloc` -/
  result_ : List Nat
  /-- The bytes of the allocation that `result_.front()` points to -/
  result_alloc : List Nat
  footpaths_scratchpad_ : List Nat
  station_marks_ : List Nat
  route_marks_ : List Nat
  any_station_marked_ : Bool
  additional_starts_ : List Nat
  additional_start_count_ : Nat
  deriving DecidableEq

def device_memory.get_result_bytes (k : build_consts) (d : device_memory) : Nat :=
  d.arrival_times_count_ * k.sizeof_time * k.max_raptor_round

def device_memory.get_station_mark_bytes (d : device_memory) : Nat :=
  ((d.stop_count_ / 32) + 1) * 4

def device_memory.get_route_mark_bytes (d : device_memory) : Nat :=
  ((d.route_count_ / 32) + 1) * 4

def device_memory.get_scratchpad_bytes (k : build_consts) (d : device_memory) : Nat :=
  d.arrival_times_count_ * k.sizeof_time

def device_memory.get_additional_starts_bytes (k : build_consts) (d : device_memory) : Nat :=
  d.max_add_starts_ * k.sizeof_additional_start

/-- The method `device_memory::reset_async(s)`. -/
def device_memory.reset_async (k : build_consts) (d : device_memory) : device_memory :=
  { d with
    result_alloc := cudaMemsetAsync d.result_alloc 0xFF (d.get_result_bytes k)
    footpaths_scratchpad_ := cudaMemsetAsync d.footpaths_scratchpad_ 0xFF (d.get_scratchpad_bytes k)
    station_marks_ := cudaMemsetAsync d.station_marks_ 0 d.get_station_mark_bytes
    route_marks_ := cudaMemsetAsync d.route_marks_ 0 d.get_route_mark_bytes
    any_station_marked_ := false
    additional_starts_ :=
      cudaMemsetAsync d.additional_starts_ 0xFF (d.get_additional_starts_bytes k)
    additional_start_count_ := k.invalid_add_start_count }

/-- The constructor `device_memory::device_memory(stop_count, criteria_config, route_count,
max_add_starts)`. -/
def device_memory.ctor (k : build_consts) (stop_count : Nat)
    (criteria_config : raptor_criteria_config) (route_count : Nat) (max_add_starts : Nat) :
    device_memory :=
  let d0 : device_memory :=
    { stop_count_ := stop_count
      route_count_ := route_count
      max_add_starts_ := max_add_starts
      arrival_times_count_ := stop_count * k.get_trait_size_for_criteria_config criteria_config
      result_ := []
      result_alloc := []
      footpaths_scratchpad_ := []
      station_marks_ := []
      route_marks_ := []
      any_station_marked_ := false
      additional_starts_ := []
      additional_start_count_ := 0 }
  let d1 : device_memory :=
    { d0 with
      result_alloc := cudaMalloc (d0.get_result_bytes k)
      result_ := init_result_ptrs stop_count 0 k.max_raptor_round
      footpaths_scratchpad_ := cudaMalloc (d0.get_scratchpad_bytes k)
      station_marks_ := cudaMalloc d0.get_station_mark_bytes
      route_marks_ := cudaMalloc d0.get_route_mark_bytes
      additional_starts_ := cudaMalloc (d0.get_additional_starts_bytes k) }
  d1.reset_async k

/-- Modelled from the spec: the class `raptor_result_pinned` is declared
outside the translated file.  The pinned result mirror of one configuration
holds `max_raptor_round` rows of `stop_count * width` time entries, all
"unreached" (every bit set) when fresh. -/
def raptor_result_pinned.ctor (k : build_consts) (stop_count : Nat)
    (criteria_config : raptor_criteria_config) : List Nat :=
  List.replicate
    (k.max_raptor_round * (stop_count * k.get_trait_size_for_criteria_config criteria_config)
      * k.sizeof_time) 0xFF

/-- Modelled from the spec: `raptor_result_pinned::reset` is declared outside
the translated file; it overwrites the result arrays with the "unreached"
value (every bit set). -/
def raptor_result_pinned.reset (r : List Nat) : List Nat :=
  List.replicate r.length 0xFF

structure host_memory where
  /-- The bytes of the pinned `raptor_result_pinned` that `result_` owns -/
  result_ : List Nat
  /-- The pinned flag `*any_station_marked_` -/
  any_station_marked_ : Bool
  deriving DecidableEq

/-- The constructor `host_memory::host_memory(stop_count, criteria_config)`. -/
def host_memory.ctor (k : build_consts) (stop_count : Nat)
    (criteria_config : raptor_criteria_config) : host_memory :=
  { result_ := raptor_result_pinned.ctor k stop_count criteria_config
    any_station_marked_ := false }

/-- The method `host_memory::reset()`. -/
def host_memory.reset (h : host_memory) : host_memory :=
  { any_station_marked_ := false
    result_ := raptor_result_pinned.reset h.result_ }

/-! ## What the kernel and the query code may do to the buffers

The relaxation kernel and the query set-up are outside the translated file;
between acquisition and release they populate the buffers of the active
configuration.  A write changes one byte of one buffer (inside its
allocation), the touched flag, or the additional-start count. -/

inductive device_write where
  | result (i : Nat) (b : Nat)
  | footpaths_scratchpad (i : Nat) (b : Nat)
  | station_marks (i : Nat) (b : Nat)
  | route_marks (i : Nat) (b : Nat)
  | any_station_marked (v : Bool)
  | additional_starts (i : Nat) (b : Nat)
  | additional_start_count (n : Nat)
  deriving DecidableEq

inductive host_write where
  | result (i : Nat) (b : Nat)
  | any_station_marked (v : Bool)
  deriving DecidableEq

def device_memory.write (d : device_memory) : device_write → device_memory
  | .result i b => { d with result_alloc := d.result_alloc.set i b }
  | .footpaths_scratchpad i b =>
    { d with footpaths_scratchpad_ := d.footpaths_scratchpad_.set i b }
  | .station_marks i b => { d with station_marks_ := d.station_marks_.set i b }
  | .route_marks i b => { d with route_marks_ := d.route_marks_.set i b }
  | .any_station_marked v => { d with any_station_marked_ := v }
  | .additional_starts i b => { d with additional_starts_ := d.additional_starts_.set i b }
  | .additional_start_count n => { d with additional_start_count_ := n }

def host_memory.write (h : host_memory) : host_write → host_memory
  | .result i b => { h with result_ := h.result_.set i b }
  | .any_station_marked v => { h with any_station_marked_ := v }

/-! ## The pooled slot -/

/-- A `std::unordered_map<raptor_criteria_config, std::unique_ptr<T>>`: the
keys in insertion order, each with the address it owns (or `nullptr`). -/
abbrev ptr_map := List (raptor_criteria_config × Option Nat)

/-- The expression `m[c].get()`: `operator[]` inserts a null `unique_ptr`
under a key that is absent.  Returns the raw pointer and the map afterwards. -/
def ptr_map.index (m : ptr_map) (c : raptor_criteria_config) : Option Nat × ptr_map :=
  match m.lookup c with
  | some p => (p, m)
  | none => (none, m ++ [(c, none)])

structure mem where
  /-- The `host_memory` objects created by `std::make_unique`, by address -/
  host_heap : List host_memory
  /-- The `device_memory` objects created by `std::make_unique`, by address -/
  device_heap : List device_memory
  host_memories_ : ptr_map
  device_memories_ : ptr_map
  context_ : device_context
  active_host_ : Option Nat
  active_device_ : Option Nat
  active_config_ : raptor_criteria_config
  is_reset_ : Bool
  deriving DecidableEq

/-- The call `host_memories_.emplace(c, std::make_unique<host_memory>(...))`:
the new object is kept only when the key is absent. -/
def mem.emplace_host (m : mem) (c : raptor_criteria_config) (obj : host_memory) : mem :=
  match m.host_memories_.lookup c with
  | some _ => m
  | none =>
    { m with
      host_heap := m.host_heap ++ [obj]
      host_memories_ := m.host_memories_ ++ [(c, some m.host_heap.length)] }

/-- The call `device_memories_.emplace(c, std::make_unique<device_memory>(...))`:
the new object is kept only when the key is absent. -/
def mem.emplace_device (m : mem) (c : raptor_criteria_config) (obj : device_memory) : mem :=
  match m.device_memories_.lookup c with
  | some _ => m
  | none =>
    { m with
      device_heap := m.device_heap ++ [obj]
      device_memories_ := m.device_memories_ ++ [(c, some m.device_heap.length)] }

/-- The two `emplace` calls of the constructor body, for configuration `c`. -/
def mem.emplace_memories (k : build_consts) (stop_count route_count : Nat)
    (max_add_starts : Nat) (m : mem) (c : raptor_criteria_config) : mem :=
  (m.emplace_host c (host_memory.ctor k stop_count c)).emplace_device c
    (device_memory.ctor k stop_count c route_count max_add_starts)

/-- Modelled from the spec: the textual expansion `INIT_HOST_AND_DEVICE_MEMORY`
is declared outside the translated file; every further configuration is
"populated identically" to the default one, that is by the two `emplace`
calls that the constructor spells out for `Default`. -/
def INIT_HOST_AND_DEVICE_MEMORY (k : build_consts) (stop_count route_count : Nat)
    (max_add_starts : Nat) (m : mem) (c : raptor_criteria_config) : mem :=
  mem.emplace_memories k stop_count route_count max_add_starts m c

/-- The constructor `mem::mem(stop_count, route_count, max_add_starts,
device_id, concurrency_per_device)`. -/
def mem.ctor (k : build_consts) (stop_count route_count : Nat) (max_add_starts : Nat)
    (device_id : Nat) (concurrency_per_device : Int) : mem :=
  let m0 : mem :=
    { host_heap := []
      device_heap := []
      host_memories_ := []
      device_memories_ := []
      context_ := device_context.ctor k device_id concurrency_per_device
      active_host_ := none
      active_device_ := none
      active_config_ := raptor_criteria_config.Default
      is_reset_ := true }
  let m1 := mem.emplace_memories k stop_count route_count max_add_starts m0
    raptor_criteria_config.Default
  let m2 := k.configs_wo_default.foldl
    (INIT_HOST_AND_DEVICE_MEMORY k stop_count route_count max_add_starts) m1
  let h := m2.host_memories_.index raptor_criteria_config.Default
  let d := m2.device_memories_.index raptor_criteria_config.Default
  { m2 with
    host_memories_ := h.2
    device_memories_ := d.2
    active_host_ := h.1
    active_device_ := d.1 }

/-- The method `mem::reset_active()`. -/
def mem.reset_active (k : build_consts) (m : mem) : Except failure mem :=
  match m.active_device_, m.active_host_ with
  | some pd, some ph =>
    match m.device_heap[pd]?, m.host_heap[ph]? with
    | some d, some h =>
      .ok { m with
            device_heap := m.device_heap.set pd (d.reset_async k)
            host_heap := m.host_heap.set ph h.reset
            is_reset_ := true }
    | _, _ => .error .undefined_behaviour
  | _, _ => .error .undefined_behaviour

/-- The method `mem::require_active(criteria_config)`. -/
def mem.require_active (k : build_consts) (m : mem) (criteria_config : raptor_criteria_config) :
    Except failure mem :=
  (if !m.is_reset_ then m.reset_active k else .ok m) >>= fun m1 =>
  let m2 : mem :=
    if criteria_config != m1.active_config_ then
      let h := m1.host_memories_.index criteria_config
      let d := m1.device_memories_.index criteria_config
      { m1 with
        host_memories_ := h.2
        device_memories_ := d.2
        active_host_ := h.1
        active_device_ := d.1
        active_config_ := criteria_config }
    else m1
  if m2.active_host_ != none && m2.active_device_ != none then
    .ok { m2 with is_reset_ := false }
  else
    .error (.exception "Either active host or active device are null!")

/-- A write of the kernel or the query code through `active_device_`. -/
def mem.write_device (m : mem) (w : device_write) : Except failure mem :=
  match m.active_device_ with
  | some pd =>
    match m.device_heap[pd]? with
    | some d => .ok { m with device_heap := m.device_heap.set pd (d.write w) }
    | none => .error .undefined_behaviour
  | none => .error .undefined_behaviour

/-- A write of the query code through `active_host_`. -/
def mem.write_host (m : mem) (w : host_write) : Except failure mem :=
  match m.active_host_ with
  | some ph =>
    match m.host_heap[ph]? with
    | some h => .ok { m with host_heap := m.host_heap.set ph (h.write w) }
    | none => .error .undefined_behaviour
  | none => .error .undefined_behaviour

/-- One write into the buffers of the active configuration. -/
inductive buffer_write where
  | device (w : device_write)
  | host (w : host_write)
  deriving DecidableEq

def mem.write (m : mem) : buffer_write → Except failure mem
  | .device w => m.write_device w
  | .host w => m.write_host w

/-- A sequence of writes, in order. -/
def mem.writes (m : mem) : List buffer_write → Except failure mem
  | [] => .ok m
  | w :: ws => m.write w >>= fun m1 => m1.writes ws

/-- The `device_memory` object owned under key `c`, if there is one. -/
def mem.device_of (m : mem) (c : raptor_criteria_config) : Option device_memory :=
  match m.device_memories_.lookup c with
  | some (some a) => m.device_heap[a]?
  | _ => none

/-- The `host_memory` object owned under key `c`, if there is one. -/
def mem.host_of (m : mem) (c : raptor_criteria_config) : Option host_memory :=
  match m.host_memories_.lookup c with
  | some (some a) => m.host_heap[a]?
  | _ => none

/-- The object `*active_device_`. -/
def mem.active_device (m : mem) : Option device_memory :=
  match m.active_device_ with
  | some a => m.device_heap[a]?
  | none => none

/-- The object `*active_host_`. -/
def mem.active_host (m : mem) : Option host_memory :=
  match m.active_host_ with
  | some a => m.host_heap[a]?
  | none => none

/-- The configurations a slot is built for. -/
def supported (k : build_consts) : List raptor_criteria_config :=
  raptor_criteria_config.Default :: k.configs_wo_default

/-! ## The pool and its loans -/

structure memory_store where
  memory_ : List mem
  /-- One `std::mutex` per slot; `true` when it is owned -/
  memory_mutexes_ : List Bool
  current_idx_ : Nat
  deriving DecidableEq

/-- The inner loop of `memory_store::init`: `n` slots on device `device_id`. -/
def init_device (k : build_consts) (stop_count route_count : Nat) (max_add_starts : Nat)
    (concurrency_per_device : Int) (device_id : Nat) : Nat → List mem
  | 0 => []
  | n + 1 =>
    mem.ctor k stop_count route_count max_add_starts device_id concurrency_per_device ::
      init_device k stop_count route_count max_add_starts concurrency_per_device device_id n

/-- The outer loop of `memory_store::init`: devices `device_id`, ...,
`device_id + n - 1`. -/
def init_devices (k : build_consts) (stop_count route_count : Nat) (max_add_starts : Nat)
    (concurrency_per_device : Int) (device_id : Nat) : Nat → List mem
  | 0 => []
  | n + 1 =>
    init_device k stop_count route_count max_add_starts concurrency_per_device device_id
        concurrency_per_device.toNat ++
      init_devices k stop_count route_count max_add_starts concurrency_per_device
        (device_id + 1) n

/-- The method `memory_store::init(meta_info, tt, concurrency_per_device)`;
`stop_count`, `route_count` are those of `tt`, `max_add_starts` is
`get_max_add_starts(meta_info)` and `device_count` is what
`cudaGetDeviceCount` reports. -/
def memory_store.init (k : build_consts) (s : memory_store) (stop_count route_count : Nat)
    (max_add_starts : Nat) (device_count : Int) (concurrency_per_device : Int) :
    memory_store :=
  let memory_ := s.memory_ ++
    init_devices k stop_count route_count max_add_starts concurrency_per_device 0
      device_count.toNat
  { s with
    memory_ := memory_
    memory_mutexes_ := List.replicate memory_.length false }

/-- A `memory_store` before `init`: no slots, the counter at zero. -/
def memory_store.empty : memory_store :=
  { memory_ := [], memory_mutexes_ := [], current_idx_ := 0 }

/-- The method `memory_store::get_mem_idx()`: the index returned and the
store afterwards.  `fetch_add` wraps at the width of `mem_idx`; the remainder
is not larger than the counter, so converting it back to `mem_idx` keeps it.
The pool must not be empty (the remainder by zero is undefined). -/
def memory_store.get_mem_idx (k : build_consts) (s : memory_store) : Nat × memory_store :=
  let old := s.current_idx_
  (old % s.memory_.length, { s with current_idx_ := (old + 1) % 2 ^ k.mem_idx_bits })

/-- The indices of `n` calls of `get_mem_idx` one after the other. -/
def memory_store.get_mem_idx_seq (k : build_consts) (s : memory_store) :
    Nat → List Nat × memory_store
  | 0 => ([], s)
  | n + 1 =>
    let r := s.get_mem_idx k
    let rest := memory_store.get_mem_idx_seq k r.2 n
    (r.1 :: rest.1, rest.2)

/-- Where a `loaned_mem` is in its life: constructor blocked on the mutex
(after `get_mem_idx`), constructed and holding the lock, or past the body of
the destructor (slot reset and compute stream drained) with the lock not yet
given up. -/
inductive loan_phase where
  | blocked
  | live
  | finished
  deriving DecidableEq

structure loaned_mem where
  /-- The slot index `idx` of the constructor: `mem_` is `memory_[idx]` and
  `lock_` is on `memory_mutexes_[idx]` -/
  idx : Nat
  phase : loan_phase
  deriving DecidableEq

/-- A loan owns the mutex of its slot from the end of the constructor to the
end of the destructor. -/
def loaned_mem.holds (l : loaned_mem) : Bool :=
  l.phase != loan_phase.blocked

/-- The pool together with every `loaned_mem` that exists. -/
structure pool where
  store : memory_store
  loans : List loaned_mem
  deriving DecidableEq

/-- The steps of the threads that use the pool; `p` is the position of the
loan that takes the step. -/
inductive pool_action where
  /-- A constructor starts: `idx = store.get_mem_idx()` -/
  | begin_acquire
  /-- The constructor obtains the mutex, when it is free, and binds `mem_` -/
  | lock (p : Nat)
  /-- The holder calls `mem_->require_active(c)` -/
  | require_active (p : Nat) (c : raptor_criteria_config)
  /-- The holder or its kernel writes into the active buffers -/
  | write (p : Nat) (w : buffer_write)
  /-- The destructor body: `mem_->reset_active()` and the stream sync -/
  | destroy (p : Nat)
  /-- The member `lock_` is destroyed: the mutex is free again -/
  | unlock (p : Nat)
  deriving DecidableEq

/-- Replace slot `i` by the outcome of an operation on it, when it succeeds. -/
def pool.update_slot (s : pool) (i : Nat) (r : Except failure mem) : Option pool :=
  match r with
  | .ok m1 => some { s with store := { s.store with memory_ := s.store.memory_.set i m1 } }
  | .error _ => none

/-- One step of the pool; `none` when the step is not enabled (a blocked
constructor whose mutex is owned) or does not complete. -/
def pool.step (k : build_consts) (s : pool) : pool_action → Option pool
  | .begin_acquire =>
    if s.store.memory_.length = 0 then none
    else
      let r := s.store.get_mem_idx k
      some { store := r.2, loans := s.loans ++ [{ idx := r.1, phase := .blocked }] }
  | .lock p =>
    match s.loans[p]? with
    | some { idx := i, phase := .blocked } =>
      match s.store.memory_mutexes_[i]? with
      | some false =>
        some { store := { s.store with memory_mutexes_ := s.store.memory_mutexes_.set i true }
               loans := s.loans.set p { idx := i, phase := .live } }
      | _ => none
    | _ => none
  | .require_active p c =>
    match s.loans[p]? with
    | some { idx := i, phase := .live } =>
      match s.store.memory_[i]? with
      | some m => s.update_slot i (m.require_active k c)
      | none => none
    | _ => none
  | .write p w =>
    match s.loans[p]? with
    | some { idx := i, phase := .live } =>
      match s.store.memory_[i]? with
      | some m => s.update_slot i (m.write w)
      | none => none
    | _ => none
  | .destroy p =>
    match s.loans[p]? with
    | some { idx := i, phase := .live } =>
      match s.store.memory_[i]? with
      | some m =>
        (s.update_slot i (m.reset_active k)).map fun s1 =>
          { s1 with loans := s1.loans.set p { idx := i, phase := .finished } }
      | none => none
    | _ => none
  | .unlock p =>
    match s.loans[p]? with
    | some { idx := i, phase := .finished } =>
      some { store := { s.store with memory_mutexes_ := s.store.memory_mutexes_.set i false }
             loans := s.loans.eraseIdx p }
    | _ => none

/-- Run a list of steps; `none` as soon as one of them is not enabled. -/
def pool.run (k : build_consts) (s : pool) : List pool_action → Option pool
  | [] => some s
  | a :: as => (s.step k a).bind fun s1 => pool.run k s1 as

/-- The slot indices of the loans of a list that own a mutex. -/
def held_of (ls : List loaned_mem) : List Nat :=
  (ls.filter loaned_mem.holds).map loaned_mem.idx

/-- The slot indices of the loans that own a mutex. -/
def pool.held (s : pool) : List Nat :=
  held_of s.loans

/-! ## Reachable states and invariants -/

/-- Every buffer of a `device_memory` has the size it was allocated with. -/
def device_memory.wf (k : build_consts) (d : device_memory) : Prop :=
  d.result_alloc.length = d.get_result_bytes k ∧
  d.footpaths_scratchpad_.length = d.get_scratchpad_bytes k ∧
  d.station_marks_.length = d.get_station_mark_bytes ∧
  d.route_marks_.length = d.get_route_mark_bytes ∧
  d.additional_starts_.length = d.get_additional_starts_bytes k

/-- Every key of the map owns an object of the heap, and no two keys own the
same object. -/
def ptr_map.wf (m : ptr_map) (heap_size : Nat) : Prop :=
  (∀ e ∈ m, ∃ a, e.2 = some a ∧ a < heap_size) ∧
  (m.map Prod.snd).Nodup ∧ (m.map Prod.fst).Nodup

/-- The consistency of the two maps of a slot: both are well formed over
their heaps and have the same keys, and every device buffer has its
allocated size. -/
structure mem.built (k : build_consts) (m : mem) : Prop where
  host_wf : m.host_memories_.wf m.host_heap.length
  device_wf : m.device_memories_.wf m.device_heap.length
  same_keys : m.host_memories_.map Prod.fst = m.device_memories_.map Prod.fst
  buffers : ∀ d ∈ m.device_heap, d.wf k

/-- The consistency of a slot: its maps are consistent and the active
pointers are the entries stored under the active configuration. -/
structure mem.inv (k : build_consts) (m : mem) : Prop where
  built : m.built k
  active_host : m.host_memories_.lookup m.active_config_ = some m.active_host_
  active_device : m.device_memories_.lookup m.active_config_ = some m.active_device_

/-- The state that a reset leaves the active buffers of a slot in: both mark
bitsets zero over their full size, the touched flags false, the
additional-start count invalid, every byte of the result and scratch arrays
0xFF, and the slot marked reset. -/
def mem.clean (k : build_consts) (m : mem) : Prop :=
  m.is_reset_ = true ∧
  ∃ d h, m.active_device = some d ∧ m.active_host = some h ∧
    d.station_marks_ = List.replicate d.get_station_mark_bytes 0 ∧
    d.route_marks_ = List.replicate d.get_route_mark_bytes 0 ∧
    d.any_station_marked_ = false ∧
    d.additional_start_count_ = k.invalid_add_start_count ∧
    d.result_alloc = List.replicate (d.get_result_bytes k) 0xFF ∧
    d.footpaths_scratchpad_ = List.replicate (d.get_scratchpad_bytes k) 0xFF ∧
    h.any_station_marked_ = false

/-- The states of a slot reachable from `m0` by `reset_active`, by
`require_active` of a supported configuration, and by writes into the active
buffers. -/
inductive mem.reachable (k : build_consts) (m0 : mem) : mem → Prop where
  | fresh : mem.reachable k m0 m0
  | reset_active {m m1 : mem} :
    mem.reachable k m0 m → m.reset_active k = .ok m1 → mem.reachable k m0 m1
  | require_active {m m1 : mem} (c : raptor_criteria_config) :
    mem.reachable k m0 m → c ∈ supported k → m.require_active k c = .ok m1 →
    mem.reachable k m0 m1
  | write {m m1 : mem} (w : buffer_write) :
    mem.reachable k m0 m → m.write w = .ok m1 → mem.reachable k m0 m1

/-- The states of the pool reachable from `s0` by steps of its users. -/
inductive pool.reachable (k : build_consts) (s0 : pool) : pool → Prop where
  | start : pool.reachable k s0 s0
  | step {s s1 : pool} (a : pool_action) :
    pool.reachable k s0 s → s.step k a = some s1 → pool.reachable k s0 s1

/-- The bitset size as the specification words it: `ceil(count / 32) * 4`. -/
def spec_bitset_bytes (count : Nat) : Nat := ((count + 31) / 32) * 4

/-- Constants of a small sample build: 2-byte times, two rounds, one further
configuration of width 2, a 32-bit slot counter. -/
def sample_consts : build_consts :=
  { sizeof_time := 2
    max_raptor_round := 2
    sizeof_additional_start := 4
    invalid_add_start_count := 4294967295
    get_trait_size_for_criteria_config := fun c =>
      match c with
      | .Default => 1
      | .Other _ => 2
    configs_wo_default := [.Other 1]
    get_gpu_launch_config := fun _ => (64, 1024)
    mem_idx_bits := 32 }

/-- A slot of the sample build: one stop, one route, one additional start. -/
def sample_mem : mem := mem.ctor sample_consts 1 1 1 0 2

/-- A pool of three slots whose counter has reached the largest 32-bit value. -/
def sample_store_at_wrap : memory_store :=
  { memory_ := [sample_mem, sample_mem, sample_mem]
    memory_mutexes_ := [false, false, false]
    current_idx_ := 4294967295 }

/-- The pool of the sample build, 2 devices with 2 slots each, after `c`
acquisitions. -/
def sample_store_at (c : Nat) : memory_store :=
  { memory_store.init sample_consts memory_store.empty 1 1 1 2 2 with current_idx_ := c }

/-- The state of a successful call, `d` when the call fails. -/
def ok_or (d : mem) : Except failure mem → mem
  | .ok m => m
  | .error _ => d

/-- The sample slot after `require_active(Default)`. -/
def sample_mem_active : mem :=
  ok_or sample_mem (sample_mem.require_active sample_consts .Default)

/-- The sample slot after `require_active(Default)` and three writes of a
query into the active buffers. -/
def sample_mem_dirty : mem :=
  ok_or sample_mem (sample_mem_active.writes
    [.device (.result 0 7), .device (.station_marks 1 255), .host (.any_station_marked true)])

/-- The pool after `memory_store::init` on a fresh store, with no loans. -/
def pool.start (k : build_consts) (stop_count route_count : Nat) (max_add_starts : Nat)
    (device_count : Int) (concurrency_per_device : Int) : pool :=
  { store := memory_store.init k memory_store.empty stop_count route_count max_add_starts
      device_count concurrency_per_device
    loans := [] }

/-- The invariant of the pool: one mutex per slot; a mutex is owned exactly
when one loan holds its slot and no slot is held twice; every loan refers to
a slot of the pool; every slot is consistent; the slot of a free mutex, and
the slot of a loan whose destructor body has run, is clean. -/
structure pool.inv (k : build_consts) (s : pool) : Prop where
  sizes : s.store.memory_mutexes_.length = s.store.memory_.length
  owned : ∀ i, i < s.store.memory_.length →
    s.held.count i = if s.store.memory_mutexes_[i]? = some true then 1 else 0
  bounded : ∀ l ∈ s.loans, l.idx < s.store.memory_.length
  slots : ∀ m ∈ s.store.memory_, m.inv k
  free_clean : ∀ (i : Nat) (m : mem), s.store.memory_[i]? = some m →
    s.store.memory_mutexes_[i]? = some false → m.clean k
  finished_clean : ∀ l ∈ s.loans, l.phase = loan_phase.finished →
    ∀ m : mem, s.store.memory_[l.idx]? = some m → m.clean k

/-- The pool of the sample build: 2 devices with 2 slots each. -/
def sample_pool : pool := pool.start sample_consts 1 1 1 2 2

/-- Five threads ask for a slot, four obtain theirs. -/
def sample_four_acquired : List pool_action :=
  [.begin_acquire, .begin_acquire, .begin_acquire, .begin_acquire, .begin_acquire,
   .lock 0, .lock 1, .lock 2, .lock 3]

/-- The holder of slot 0 runs a query and releases; the fifth thread, now at
position 3 of the loans, obtains slot 0. -/
def sample_release_and_fifth : List pool_action :=
  [.require_active 0 .Default, .write 0 (.device (.result 0 7)), .destroy 0, .unlock 0,
   .lock 3]

/-- The sample pool when the fifth thread has obtained its slot. -/
def sample_pool_final : pool :=
  (pool.run sample_consts sample_pool
    (sample_four_acquired ++ sample_release_and_fifth)).getD sample_pool

/-! # Theorems -/

/-! ## Sizes of the mark bitsets -/

/-- The specification's `ceil(count / 32)` is the ceiling of the exact
quotient. -/
theorem spec_bitset_bytes_eq_ceil (n : Nat) :
    spec_bitset_bytes n = ⌈(n : ℚ) / 32⌉₊ * 4 := by
  unfold spec_bitset_bytes
  congr 1
  apply le_antisymm
  · by_cases h0 : (n + 31) / 32 = 0
    · omega
    · have h1 : (n + 31) / 32 - 1 < ⌈(n : ℚ) / 32⌉₊ := by
        rw [Nat.lt_ceil, lt_div_iff₀ (by norm_num)]
        have h3 : ((n + 31) / 32 - 1) * 32 < n := by omega
        exact_mod_cast h3
      omega
  · rw [Nat.ceil_le, div_le_iff₀ (by norm_num)]
    have h : n ≤ (n + 31) / 32 * 32 := by omega
    exact_mod_cast h

/-- C1 (counterexample): for 32 stops and 64 routes the code returns 8 and 12
bytes, while `ceil(count / 32) * 4` is 4 and 8. -/
theorem mark_bytes_not_ceil :
    (device_memory.ctor sample_consts 32 .Default 64 0).get_station_mark_bytes = 8 ∧
    spec_bitset_bytes 32 = 4 ∧
    (device_memory.ctor sample_consts 32 .Default 64 0).get_route_mark_bytes = 12 ∧
    spec_bitset_bytes 64 = 8 ∧
    (device_memory.ctor sample_consts 32 .Default 64 0).get_station_mark_bytes
      ≠ spec_bitset_bytes 32 := by
  decide

/-- C1 (amended): `get_station_mark_bytes` and `get_route_mark_bytes` return
`(floor(n / 32) + 1) * 4` bytes; this is `ceil(n / 32) * 4` when `n` is not a
multiple of 32 and four bytes more when it is.  For 1000 stops it is 128
bytes and for 400 routes 52 bytes, whatever the other constructor arguments. -/
theorem mark_bytes_floor_plus_one (k : build_consts) (d : device_memory)
    (c : raptor_criteria_config) (a : Nat) :
    d.get_station_mark_bytes = (d.stop_count_ / 32 + 1) * 4 ∧
    d.get_route_mark_bytes = (d.route_count_ / 32 + 1) * 4 ∧
    d.get_station_mark_bytes
      = spec_bitset_bytes d.stop_count_ + (if d.stop_count_ % 32 = 0 then 4 else 0) ∧
    d.get_route_mark_bytes
      = spec_bitset_bytes d.route_count_ + (if d.route_count_ % 32 = 0 then 4 else 0) ∧
    (device_memory.ctor k 1000 c 400 a).get_station_mark_bytes = 128 ∧
    (device_memory.ctor k 1000 c 400 a).get_route_mark_bytes = 52 := by
  refine ⟨rfl, rfl, ?_, ?_, ?_, ?_⟩
  · unfold device_memory.get_station_mark_bytes spec_bitset_bytes
    split <;> omega
  · unfold device_memory.get_route_mark_bytes spec_bitset_bytes
    split <;> omega
  · show (1000 / 32 + 1) * 4 = 128
    rfl
  · show (400 / 32 + 1) * 4 = 52
    rfl

/-- A `cudaMemsetAsync` over the whole allocation leaves only the value. -/
theorem cudaMemsetAsync_full (buf : List Nat) (v n : Nat) (h : buf.length = n) :
    cudaMemsetAsync buf v n = List.replicate n v := by
  unfold cudaMemsetAsync
  rw [← h]
  simp

theorem cudaMemsetAsync_length (buf : List Nat) (v n : Nat) :
    (cudaMemsetAsync buf v n).length = buf.length := by
  unfold cudaMemsetAsync
  simp
  omega

/-- C10: for every stop count and every route count, each on its own and
zero included, the size of the mark bitset is a positive multiple of 4 bytes
and holds strictly more bits than there are entities; the 32-bit word and the
byte of every stop `i` below the stop count, and of every route `j` below the
route count, lie inside that size; and when a bitset has its allocated size,
`reset_async` leaves it zero over the full size, so the byte of every entity
is zero. -/
theorem mark_bitset_covers_entities (k : build_consts) (d : device_memory) :
    (0 < d.get_station_mark_bytes ∧ d.get_station_mark_bytes % 4 = 0 ∧
      d.stop_count_ < 8 * d.get_station_mark_bytes) ∧
    (0 < d.get_route_mark_bytes ∧ d.get_route_mark_bytes % 4 = 0 ∧
      d.route_count_ < 8 * d.get_route_mark_bytes) ∧
    (∀ i, i < d.stop_count_ →
      4 * (i / 32) + 4 ≤ d.get_station_mark_bytes ∧ i / 8 < d.get_station_mark_bytes) ∧
    (∀ j, j < d.route_count_ →
      4 * (j / 32) + 4 ≤ d.get_route_mark_bytes ∧ j / 8 < d.get_route_mark_bytes) ∧
    ((d.reset_async k).get_station_mark_bytes = d.get_station_mark_bytes ∧
      (d.reset_async k).get_route_mark_bytes = d.get_route_mark_bytes) ∧
    (d.station_marks_.length = d.get_station_mark_bytes →
      (d.reset_async k).station_marks_ = List.replicate d.get_station_mark_bytes 0 ∧
      ∀ i, i < d.stop_count_ → (d.reset_async k).station_marks_[i / 8]? = some 0) ∧
    (d.route_marks_.length = d.get_route_mark_bytes →
      (d.reset_async k).route_marks_ = List.replicate d.get_route_mark_bytes 0 ∧
      ∀ j, j < d.route_count_ → (d.reset_async k).route_marks_[j / 8]? = some 0) := by
  have bs : d.get_station_mark_bytes = (d.stop_count_ / 32 + 1) * 4 := rfl
  have br : d.get_route_mark_bytes = (d.route_count_ / 32 + 1) * 4 := rfl
  refine ⟨⟨by omega, by omega, by omega⟩, ⟨by omega, by omega, by omega⟩,
    fun i hi => ⟨by omega, by omega⟩, fun j hj => ⟨by omega, by omega⟩, ⟨rfl, rfl⟩, ?_, ?_⟩
  · intro hs
    have es : (d.reset_async k).station_marks_
        = List.replicate d.get_station_mark_bytes 0 := cudaMemsetAsync_full _ _ _ hs
    refine ⟨es, fun i hi => ?_⟩
    rw [es, List.getElem?_replicate, if_pos (by omega)]
  · intro hr
    have er : (d.reset_async k).route_marks_
        = List.replicate d.get_route_mark_bytes 0 := cudaMemsetAsync_full _ _ _ hr
    refine ⟨er, fun j hj => ?_⟩
    rw [er, List.getElem?_replicate, if_pos (by omega)]

/-- The constructor of `device_memory` allocates every buffer at the size
that the getters report. -/
theorem device_memory.ctor_wf (k : build_consts) (stop_count : Nat)
    (c : raptor_criteria_config) (route_count max_add_starts : Nat) :
    (device_memory.ctor k stop_count c route_count max_add_starts).wf k := by
  simp [device_memory.wf, device_memory.ctor, device_memory.reset_async,
    cudaMemsetAsync_length, cudaMalloc, device_memory.get_result_bytes,
    device_memory.get_scratchpad_bytes, device_memory.get_station_mark_bytes,
    device_memory.get_route_mark_bytes, device_memory.get_additional_starts_bytes]

theorem device_memory.reset_async_wf (k : build_consts) (d : device_memory) (h : d.wf k) :
    (d.reset_async k).wf k := by
  obtain ⟨h1, h2, h3, h4, h5⟩ := h
  exact ⟨by simpa [device_memory.reset_async, cudaMemsetAsync_length] using h1,
    by simpa [device_memory.reset_async, cudaMemsetAsync_length] using h2,
    by simpa [device_memory.reset_async, cudaMemsetAsync_length] using h3,
    by simpa [device_memory.reset_async, cudaMemsetAsync_length] using h4,
    by simpa [device_memory.reset_async, cudaMemsetAsync_length] using h5⟩

theorem device_memory.write_wf (k : build_consts) (d : device_memory) (w : device_write)
    (h : d.wf k) : (d.write w).wf k := by
  obtain ⟨h1, h2, h3, h4, h5⟩ := h
  cases w <;>
    exact ⟨by simpa [device_memory.write] using h1, by simpa [device_memory.write] using h2,
      by simpa [device_memory.write] using h3, by simpa [device_memory.write] using h4,
      by simpa [device_memory.write] using h5⟩

/-- C10 (witness): 1000 stops and no route at all.  The station bitset has
128 bytes, the byte of the last stop is zero after the reset, and the route
bitset still has one whole word. -/
theorem mark_bitset_covers_entities_witness :
    (device_memory.ctor sample_consts 1000 .Default 0 3).station_marks_.length
      = (device_memory.ctor sample_consts 1000 .Default 0 3).get_station_mark_bytes ∧
    ((device_memory.ctor sample_consts 1000 .Default 0 3).reset_async
      sample_consts).station_marks_[999 / 8]? = some 0 ∧
    4 * (999 / 32) + 4 ≤ (device_memory.ctor sample_consts 1000 .Default 0 3).get_station_mark_bytes ∧
    0 < (device_memory.ctor sample_consts 1000 .Default 0 3).get_route_mark_bytes :=
  have h := mark_bitset_covers_entities sample_consts
    (device_memory.ctor sample_consts 1000 .Default 0 3)
  have hl := (device_memory.ctor_wf sample_consts 1000 .Default 0 3).2.2.1
  ⟨hl, (h.2.2.2.2.2.1 hl).2 999 (by decide), (h.2.2.1 999 (by decide)).1, h.2.1.1⟩

/-! ## Launch geometry -/

theorem to_uint32_of_nonneg (v : Int) (h0 : 0 ≤ v) (h1 : v < 4294967296) :
    (to_uint32 v : Int) = v := by
  unfold to_uint32
  omega

theorem to_int32_of_range (v : Int) (h0 : -2147483648 ≤ v) (h1 : v < 2147483648) :
    to_int32 v = v := by
  unfold to_int32
  omega

theorem tdiv_1024_lt_one_iff (a : Int) : Int.tdiv a 1024 < 1 ↔ a < 1024 := by
  rcases Int.le_total 0 a with h | h
  · rw [Int.tdiv_eq_ediv h (by norm_num)]
    omega
  · have h1 : Int.tdiv a 1024 ≤ 0 := by
      have e : a = -(-a) := by omega
      rw [e, Int.neg_tdiv, Int.tdiv_eq_ediv (by omega) (by norm_num)]
      omega
    omega

/-- C3: `get_launch_paramters` throws exactly when the device reports fewer
than 1024 threads per multiprocessor, which for the non-negative values of a
device record is exactly when `maxThreadsPerMultiProcessor / (32 * 32)` is
zero; it never returns a geometry computed from zero blocks per
multiprocessor; otherwise, for values of a device record (non-negative, grid
size inside `int32_t`), it returns the block `(32, 32, 1)` and the grid
`((multiProcessorCount / concurrency_per_device) * blocks, 1, 1)`. -/
theorem get_launch_paramters_spec (prop : cudaDeviceProp) (c : Int) (hc : 0 < c) :
    ((∃ e, get_launch_paramters prop c = .error (.exception e)) ↔
      prop.maxThreadsPerMultiProcessor < 32 * 32) ∧
    (0 ≤ prop.maxThreadsPerMultiProcessor →
      ((∃ e, get_launch_paramters prop c = .error (.exception e)) ↔
        prop.maxThreadsPerMultiProcessor / (32 * 32) = 0)) ∧
    (∀ r, get_launch_paramters prop c = .ok r →
      1 ≤ prop.maxThreadsPerMultiProcessor / (32 * 32)) ∧
    (32 * 32 ≤ prop.maxThreadsPerMultiProcessor → 0 ≤ prop.multiProcessorCount →
      prop.multiProcessorCount / c * (prop.maxThreadsPerMultiProcessor / (32 * 32))
        < 2147483648 →
      get_launch_paramters prop c = .ok
        (⟨32, 32, 1⟩,
         ⟨(prop.multiProcessorCount / c
            * (prop.maxThreadsPerMultiProcessor / (32 * 32))).toNat, 1, 1⟩)) := by
  have key := tdiv_1024_lt_one_iff prop.maxThreadsPerMultiProcessor
  have hbs : to_int32 (32 * 32) = 1024 := by decide
  have herr : (∃ e, get_launch_paramters prop c = .error (.exception e)) ↔
      prop.maxThreadsPerMultiProcessor < 32 * 32 := by
    unfold get_launch_paramters
    simp only [hbs]
    constructor
    · intro ⟨e, he⟩
      by_contra hn
      rw [if_neg (by rw [key]; omega)] at he
      cases he
    · intro h
      rw [if_pos (by rw [key]; omega)]
      exact ⟨_, rfl⟩
  refine ⟨herr, ?_, ?_, ?_⟩
  · intro h0
    rw [herr]
    omega
  · intro r hr
    by_contra hn
    have hlt : prop.maxThreadsPerMultiProcessor < 32 * 32 := by omega
    obtain ⟨e, he⟩ := herr.mpr hlt
    rw [he] at hr
    cases hr
  · intro h1 h2 h3
    unfold get_launch_paramters
    simp only [hbs]
    rw [if_neg (by rw [key]; omega)]
    have hq : 0 ≤ prop.multiProcessorCount / c := Int.ediv_nonneg h2 (by omega)
    have hb : 0 ≤ prop.maxThreadsPerMultiProcessor / 1024 :=
      Int.ediv_nonneg (by omega) (by norm_num)
    have t1 : Int.tdiv prop.maxThreadsPerMultiProcessor 1024
        = prop.maxThreadsPerMultiProcessor / 1024 :=
      Int.tdiv_eq_ediv (by omega) (by norm_num)
    have t2 : Int.tdiv prop.multiProcessorCount c = prop.multiProcessorCount / c :=
      Int.tdiv_eq_ediv h2 (by omega)
    rw [t1, t2]
    have hp : 0 ≤ prop.multiProcessorCount / c * (prop.maxThreadsPerMultiProcessor / 1024) :=
      Int.mul_nonneg hq hb
    norm_num at h3
    rw [to_int32_of_range _ (by omega) h3]
    have e1 : to_uint32 32 = 32 := by decide
    have e2 : to_uint32 (prop.multiProcessorCount / c
        * (prop.maxThreadsPerMultiProcessor / 1024))
        = (prop.multiProcessorCount / c
        * (prop.maxThreadsPerMultiProcessor / 1024)).toNat := by
      have := to_uint32_of_nonneg _ hp (by omega)
      omega
    rw [e1, e2]
    norm_num

/-- C3 (witness): 80 multiprocessors of 2048 threads shared by 2 slots give
a grid of 80 blocks of 32 x 32 threads. -/
theorem get_launch_paramters_spec_witness :
    get_launch_paramters ⟨80, 2048⟩ 2 = .ok (⟨32, 32, 1⟩, ⟨80, 1, 1⟩) :=
  (get_launch_paramters_spec ⟨80, 2048⟩ 2 (by decide)).2.2.2 (by decide) (by decide)
    (by decide)

/-- C4 (counterexample): a block size of 16 gives block y = 0, outside
`[1, warp size]`; a block size of 2048 gives block y = 64. -/
theorem get_launch_config_block_y_out_of_range :
    (get_launch_config (8, 16)).threads_per_block_.y = 0 ∧
    (get_launch_config (8, 2048)).threads_per_block_.y = 64 ∧
    ¬ (1 ≤ (get_launch_config (8, 16)).threads_per_block_.y ∧
       (get_launch_config (8, 16)).threads_per_block_.y ≤ 32) := by
  decide

theorem assign_all {α : Type} (P : α → Prop) (m : List (raptor_criteria_config × α))
    (c : raptor_criteria_config) (v : α) (hm : ∀ e ∈ m, P e.2) (hv : P v) :
    ∀ e ∈ assign m c v, P e.2 := by
  intro e he
  unfold assign at he
  split at he
  · rw [List.mem_map] at he
    obtain ⟨e0, h0, rfl⟩ := he
    split
    · exact hv
    · exact hm e0 h0
  · rw [List.mem_append] at he
    rcases he with he | he
    · exact hm e he
    · simp only [List.mem_singleton] at he
      subst he
      exact hv

theorem foldl_assign_all {α : Type} (P : α → Prop) (f : raptor_criteria_config → α)
    (hf : ∀ c, P (f c)) (cs : List raptor_criteria_config) :
    ∀ (m : List (raptor_criteria_config × α)), (∀ e ∈ m, P e.2) →
      ∀ e ∈ cs.foldl (fun acc c => assign acc c (f c)) m, P e.2 := by
  induction cs with
  | nil => intro m hm; simpa using hm
  | cons c cs ih =>
    intro m hm
    rw [List.foldl_cons]
    exact ih _ (assign_all P m c (f c) hm (hf c))

/-- C4 (amended): for every `(grid_size, block_size)` pair of `int` values
`get_launch_config` returns block x = 32, block z = 1, a thread count per
block that is a multiple of 32, and grid y = z = 1; grid x is `grid_size`
when that is not negative; block y is `block_size / 32` (integer division)
when `block_size` is not negative, and lies in `[1, 32]` exactly when
`32 ≤ block_size ≤ 1055`.  Every entry that the constructor of
`device_context` stores in `launch_configs_` has block x = 32, block z = 1
and grid y = z = 1. -/
theorem get_launch_config_geometry (grid_size block_size : Int)
    (k : build_consts) (device_id : Nat) (concurrency_per_device : Int) :
    (get_launch_config (grid_size, block_size)).threads_per_block_.x = 32 ∧
    (get_launch_config (grid_size, block_size)).threads_per_block_.z = 1 ∧
    ((get_launch_config (grid_size, block_size)).threads_per_block_.x
      * (get_launch_config (grid_size, block_size)).threads_per_block_.y
      * (get_launch_config (grid_size, block_size)).threads_per_block_.z) % 32 = 0 ∧
    (get_launch_config (grid_size, block_size)).grid_.y = 1 ∧
    (get_launch_config (grid_size, block_size)).grid_.z = 1 ∧
    (0 ≤ grid_size → grid_size < 2147483648 →
      ((get_launch_config (grid_size, block_size)).grid_.x : Int) = grid_size) ∧
    (0 ≤ block_size → block_size < 2147483648 →
      ((get_launch_config (grid_size, block_size)).threads_per_block_.y : Int)
        = block_size / 32) ∧
    (-2147483648 ≤ block_size → block_size < 2147483648 →
      ((1 ≤ (get_launch_config (grid_size, block_size)).threads_per_block_.y ∧
        (get_launch_config (grid_size, block_size)).threads_per_block_.y ≤ 32) ↔
       (32 ≤ block_size ∧ block_size ≤ 1055))) ∧
    (∀ e ∈ (device_context.ctor k device_id concurrency_per_device).launch_configs_,
      e.2.threads_per_block_.x = 32 ∧ e.2.threads_per_block_.z = 1 ∧
      e.2.grid_.y = 1 ∧ e.2.grid_.z = 1) := by
  refine ⟨rfl, rfl, ?_, rfl, rfl, ?_, ?_, ?_, ?_⟩
  · show (32 * _ * 1) % 32 = 0
    omega
  · intro h0 h1
    exact to_uint32_of_nonneg _ h0 (by omega)
  · intro h0 h1
    show (to_uint32 (Int.tdiv block_size 32) : Int) = block_size / 32
    rw [Int.tdiv_eq_ediv h0 (by norm_num)]
    exact to_uint32_of_nonneg _ (by omega) (by omega)
  · intro h0 h1
    show (1 ≤ to_uint32 (Int.tdiv block_size 32) ∧ to_uint32 (Int.tdiv block_size 32) ≤ 32) ↔ _
    rcases Int.le_total 0 block_size with h | h
    · rw [Int.tdiv_eq_ediv h (by norm_num)]
      have := to_uint32_of_nonneg (block_size / 32) (by omega) (by omega)
      omega
    · have e : block_size = -(-block_size) := by omega
      have ht : Int.tdiv block_size 32 = -((-block_size) / 32) := by
        rw [e, Int.neg_tdiv, Int.tdiv_eq_ediv (by omega) (by norm_num)]
        simp
      rw [ht]
      unfold to_uint32
      omega
  · unfold device_context.ctor
    apply foldl_assign_all
      (fun v : kernel_launch_config => v.threads_per_block_.x = 32 ∧
        v.threads_per_block_.z = 1 ∧ v.grid_.y = 1 ∧ v.grid_.z = 1)
      (fun c => get_launch_config (k.get_gpu_launch_config c))
    · intro c
      exact ⟨rfl, rfl, rfl, rfl⟩
    · exact assign_all
        (fun v : kernel_launch_config => v.threads_per_block_.x = 32 ∧
          v.threads_per_block_.z = 1 ∧ v.grid_.y = 1 ∧ v.grid_.z = 1) [] _ _
        (fun e he => by cases he) ⟨rfl, rfl, rfl, rfl⟩

/-- C4 (witness): the occupancy-tuned pair (64 blocks, 1024 threads). -/
theorem get_launch_config_geometry_witness :
    get_launch_config (64, 1024) = ⟨⟨32, 32, 1⟩, ⟨64, 1, 1⟩⟩ ∧
    (1 ≤ (get_launch_config (64, 1024)).threads_per_block_.y ∧
      (get_launch_config (64, 1024)).threads_per_block_.y ≤ 32) :=
  ⟨by decide,
   ((get_launch_config_geometry 64 1024 sample_consts 0 1).2.2.2.2.2.2.2.1
      (by decide) (by decide)).mpr ⟨by decide, by decide⟩⟩

/-! ## Round-robin slot index -/

/-- C5 (counterexample): with a 32-bit counter at its largest value and a
pool of three slots, the counter is 0 after the call instead of one more, and
three calls return the indices 0, 0, 1 instead of 0, 1, 2: slot 0 is touched
twice and slot 2 not at all. -/
theorem get_mem_idx_wraps :
    ((sample_store_at_wrap.get_mem_idx sample_consts).2).current_idx_ = 0 ∧
    (sample_store_at_wrap.get_mem_idx_seq sample_consts 3).1 = [0, 0, 1] ∧
    (List.range 3).map (fun i => (sample_store_at_wrap.current_idx_ + i) % 3) = [0, 1, 2] ∧
    (sample_store_at_wrap.get_mem_idx_seq sample_consts 3).1
      ≠ (List.range 3).map (fun i => (sample_store_at_wrap.current_idx_ + i) % 3) := by
  decide

theorem get_mem_idx_seq_formula (k : build_consts) (n : Nat) :
    ∀ s : memory_store, s.current_idx_ + n ≤ 2 ^ k.mem_idx_bits →
      (memory_store.get_mem_idx_seq k s n).1
        = (List.range n).map (fun i => (s.current_idx_ + i) % s.memory_.length) := by
  induction n with
  | zero => intro s _; rfl
  | succ n ih =>
    intro s h
    show (s.current_idx_ % s.memory_.length) ::
      (memory_store.get_mem_idx_seq k (s.get_mem_idx k).2 n).1 = _
    rw [List.range_succ_eq_map, List.map_cons, List.map_map]
    congr 1
    rcases Nat.eq_zero_or_pos n with h0 | h0
    · subst h0
      rfl
    · have hlt : s.current_idx_ + 1 < 2 ^ k.mem_idx_bits := by omega
      have hc : (s.get_mem_idx k).2.current_idx_ = s.current_idx_ + 1 :=
        Nat.mod_eq_of_lt hlt
      rw [ih _ (by rw [hc]; omega), hc]
      apply List.map_congr_left
      intro i _
      show (s.current_idx_ + 1 + i) % _ = (s.current_idx_ + (i + 1)) % _
      rw [Nat.add_assoc, Nat.add_comm 1 i]
      rfl

theorem add_mod_inj (c N i j : Nat) (hi : i < N) (hj : j < N)
    (h : (c + i) % N = (c + j) % N) : i = j := by
  rcases Nat.le_total i j with hij | hij
  · have := Nat.sub_mod_eq_zero_of_mod_eq h.symm
    have e : c + j - (c + i) = j - i := by omega
    rw [e] at this
    have := Nat.eq_zero_of_dvd_of_lt (Nat.dvd_of_mod_eq_zero this) (by omega)
    omega
  · have := Nat.sub_mod_eq_zero_of_mod_eq h
    have e : c + i - (c + j) = i - j := by omega
    rw [e] at this
    have := Nat.eq_zero_of_dvd_of_lt (Nat.dvd_of_mod_eq_zero this) (by omega)
    omega

theorem round_robin_count (c N : Nat) (j : Nat) (hj : j < N) :
    ((List.range N).map (fun i => (c + i) % N)).count j = 1 := by
  apply List.count_eq_one_of_mem
  · apply List.Nodup.map_on
    · intro a ha b hb hab
      exact add_mod_inj c N a b (List.mem_range.mp ha) (List.mem_range.mp hb) hab
    · exact List.nodup_range N
  · rw [List.mem_map]
    refine ⟨(j + (N - c % N)) % N, List.mem_range.mpr (Nat.mod_lt _ (by omega)), ?_⟩
    have hc : c % N < N := Nat.mod_lt _ (by omega)
    have hdiv : N * (c / N) + c % N = c := Nat.div_add_mod c N
    show (c + (j + (N - c % N)) % N) % N = j
    rw [Nat.add_mod_mod]
    have e : c + (j + (N - c % N)) = j + N * (c / N + 1) := by
      rw [Nat.mul_succ]
      omega
    rw [e, Nat.add_mul_mod_self_left]
    exact Nat.mod_eq_of_lt hj

/-- C5 (amended): for a pool of `N > 0` slots and a counter value `c` of the
`mem_idx` type, `get_mem_idx` returns `c mod N`, an index below `N`, leaves
the slots alone and advances the counter by one modulo `2 ^ width`, which is
`c + 1` unless `c` is the largest value of the type.  When the counter does
not wrap during them (`c + N ≤ 2 ^ width`), `N` calls one after the other
return `(c + i) mod N` for `i = 0 .. N - 1`, every slot index exactly once. -/
theorem get_mem_idx_round_robin (k : build_consts) (s : memory_store)
    (hN : 0 < s.memory_.length) :
    (s.get_mem_idx k).1 = s.current_idx_ % s.memory_.length ∧
    (s.get_mem_idx k).1 < s.memory_.length ∧
    (s.get_mem_idx k).2.memory_ = s.memory_ ∧
    (s.get_mem_idx k).2.current_idx_ = (s.current_idx_ + 1) % 2 ^ k.mem_idx_bits ∧
    (s.current_idx_ + 1 < 2 ^ k.mem_idx_bits →
      (s.get_mem_idx k).2.current_idx_ = s.current_idx_ + 1) ∧
    (s.current_idx_ + s.memory_.length ≤ 2 ^ k.mem_idx_bits →
      (s.get_mem_idx_seq k s.memory_.length).1
        = (List.range s.memory_.length).map
            (fun i => (s.current_idx_ + i) % s.memory_.length) ∧
      ∀ j, j < s.memory_.length →
        (s.get_mem_idx_seq k s.memory_.length).1.count j = 1) := by
  refine ⟨rfl, Nat.mod_lt _ hN, rfl, rfl, fun h => Nat.mod_eq_of_lt h, fun h => ?_⟩
  rw [get_mem_idx_seq_formula k _ s h]
  exact ⟨rfl, fun j hj => round_robin_count _ _ j hj⟩

/-- C5 (witness): a pool of 2 devices x 2 slots whose counter stands at 6
hands out the slots 2, 3, 0, 1. -/
theorem get_mem_idx_round_robin_witness :
    ((sample_store_at 6).get_mem_idx_seq sample_consts 4).1 = [2, 3, 0, 1] :=
  ((get_mem_idx_round_robin sample_consts (sample_store_at 6) (by decide)).2.2.2.2.2
    (by decide)).1

/-! ## Layout of the result buffer -/

/-- The pointer of round `i` is `i * stop_count` entries behind the first. -/
theorem init_result_ptrs_getElem (stop_count : Nat) (n : Nat) :
    ∀ front i, i < n →
      (init_result_ptrs stop_count front n)[i]? = some (front + i * stop_count) := by
  induction n with
  | zero => intro _ i h; omega
  | succ n ih =>
    intro front i h
    cases i with
    | zero => simp [init_result_ptrs]
    | succ i =>
      simp only [init_result_ptrs, List.getElem?_cons_succ]
      rw [ih _ i (by omega)]
      congr 1
      rw [Nat.succ_mul]
      omega

/-- The sizes of the result buffer and of the scratch pad, and the stride of
the round pointers, for every constructor argument. -/
theorem device_memory.ctor_layout (k : build_consts) (stop_count : Nat)
    (c : raptor_criteria_config) (route_count max_add_starts : Nat) (i : Nat)
    (hi : i < k.max_raptor_round) :
    (device_memory.ctor k stop_count c route_count max_add_starts).get_result_bytes k
      = k.max_raptor_round * stop_count * k.get_trait_size_for_criteria_config c
        * k.sizeof_time ∧
    (device_memory.ctor k stop_count c route_count max_add_starts).get_scratchpad_bytes k
      = stop_count * k.get_trait_size_for_criteria_config c * k.sizeof_time ∧
    (device_memory.ctor k stop_count c route_count max_add_starts).result_[i]?
      = some (i * stop_count) := by
  refine ⟨?_, rfl, ?_⟩
  · show stop_count * _ * _ * _ = _
    ring
  · show (init_result_ptrs stop_count 0 k.max_raptor_round)[i]? = _
    rw [init_result_ptrs_getElem _ _ _ _ hi]
    simp

/-- C2 (failing input): 2 stops, a configuration of width 2, two rounds of
2-byte times.  The buffer has 16 bytes, that is two rows of 4 entries, but
the pointer of round 1 is 2 entries behind that of round 0 instead of
`1 * 2 * 2 = 4`: the row of round 1 starts inside the row of round 0. -/
theorem result_rows_overlap :
    (device_memory.ctor sample_consts 2 (.Other 1) 1 0).arrival_times_count_ = 4 ∧
    (device_memory.ctor sample_consts 2 (.Other 1) 1 0).get_result_bytes sample_consts = 16 ∧
    (device_memory.ctor sample_consts 2 (.Other 1) 1 0).get_scratchpad_bytes sample_consts
      = 8 ∧
    (device_memory.ctor sample_consts 2 (.Other 1) 1 0).result_ = [0, 2] ∧
    (device_memory.ctor sample_consts 2 (.Other 1) 1 0).result_[1]?
      ≠ some (1 * 2 * sample_consts.get_trait_size_for_criteria_config (.Other 1)) ∧
    (0 : Nat) + (device_memory.ctor sample_consts 2 (.Other 1) 1 0).arrival_times_count_ > 2 := by
  decide

/-! ## The maps of a slot -/

theorem ptr_map.mem_of_lookup {m : ptr_map} {c : raptor_criteria_config} {p : Option Nat}
    (h : m.lookup c = some p) : (c, p) ∈ m := by
  rw [List.lookup_eq_some_iff] at h
  obtain ⟨l1, l2, rfl, _⟩ := h
  simp

theorem ptr_map.lookup_none_iff {m : ptr_map} {c : raptor_criteria_config} :
    m.lookup c = none ↔ c ∉ m.map Prod.fst := by
  rw [List.lookup_eq_none_iff]
  constructor
  · intro h hc
    rw [List.mem_map] at hc
    obtain ⟨e, he, rfl⟩ := hc
    have := h e he
    simp at this
  · intro h e he
    have : e.1 ≠ c := by
      intro hc
      exact h (List.mem_map.mpr ⟨e, he, hc⟩)
    simpa [bne_iff_ne] using fun hh => this hh.symm

theorem ptr_map.lookup_isSome_iff {m : ptr_map} {c : raptor_criteria_config} :
    (m.lookup c).isSome = true ↔ c ∈ m.map Prod.fst := by
  rw [← not_iff_not, ← ptr_map.lookup_none_iff]
  cases m.lookup c <;> simp

theorem ptr_map.wf_lookup {m : ptr_map} {n : Nat} (hwf : m.wf n)
    {c : raptor_criteria_config} {p : Option Nat} (h : m.lookup c = some p) :
    ∃ a, p = some a ∧ a < n :=
  hwf.1 (c, p) (ptr_map.mem_of_lookup h)

theorem ptr_map.wf_key {m : ptr_map} {n : Nat} (hwf : m.wf n)
    {c : raptor_criteria_config} (h : c ∈ m.map Prod.fst) :
    ∃ a, m.lookup c = some (some a) ∧ a < n := by
  rw [← ptr_map.lookup_isSome_iff] at h
  cases hl : m.lookup c with
  | none => rw [hl] at h; cases h
  | some p =>
    obtain ⟨a, rfl, ha⟩ := ptr_map.wf_lookup hwf hl
    exact ⟨a, rfl, ha⟩

/-- Two keys never own the same object. -/
theorem ptr_map.wf_inj {m : ptr_map} {n : Nat} (hwf : m.wf n)
    {c1 c2 : raptor_criteria_config} {a : Nat}
    (h1 : m.lookup c1 = some (some a)) (h2 : m.lookup c2 = some (some a)) : c1 = c2 := by
  have e := List.inj_on_of_nodup_map hwf.2.1 (ptr_map.mem_of_lookup h1)
    (ptr_map.mem_of_lookup h2) rfl
  exact congrArg Prod.fst e

theorem ptr_map.wf_append {m : ptr_map} {n : Nat} (hwf : m.wf n)
    {c : raptor_criteria_config} (h : m.lookup c = none) :
    ptr_map.wf (m ++ [(c, some n)]) (n + 1) := by
  refine ⟨fun e he => ?_, ?_, ?_⟩
  · rw [List.mem_append] at he
    rcases he with he | he
    · obtain ⟨a, ha, hlt⟩ := hwf.1 e he
      exact ⟨a, ha, by omega⟩
    · simp only [List.mem_singleton] at he
      subst he
      exact ⟨n, rfl, by omega⟩
  · rw [List.map_append, List.nodup_append]
    refine ⟨hwf.2.1, by simp, ?_⟩
    intro p hp hp2
    simp only [List.map_cons, List.map_nil, List.mem_singleton] at hp2
    subst hp2
    rw [List.mem_map] at hp
    obtain ⟨e, he, hes⟩ := hp
    obtain ⟨a, ha, hlt⟩ := hwf.1 e he
    rw [ha] at hes
    simp at hes
    omega
  · rw [List.map_append, List.nodup_append]
    refine ⟨hwf.2.2, by simp, ?_⟩
    intro p hp hp2
    simp only [List.map_cons, List.map_nil, List.mem_singleton] at hp2
    subst hp2
    exact (ptr_map.lookup_none_iff.mp h) hp

theorem ptr_map.index_of_key {m : ptr_map} {c : raptor_criteria_config} {p : Option Nat}
    (h : m.lookup c = some p) : m.index c = (p, m) := by
  unfold ptr_map.index
  rw [h]

/-! ## Construction of a slot -/

theorem mem.emplace_host_built (m : mem) (c : raptor_criteria_config)
    (obj : host_memory) (hw : m.host_memories_.wf m.host_heap.length) :
    (m.emplace_host c obj).host_memories_.wf (m.emplace_host c obj).host_heap.length ∧
    (m.emplace_host c obj).host_memories_.map Prod.fst
      = (if c ∈ m.host_memories_.map Prod.fst then m.host_memories_.map Prod.fst
         else m.host_memories_.map Prod.fst ++ [c]) ∧
    (m.emplace_host c obj).device_memories_ = m.device_memories_ ∧
    (m.emplace_host c obj).device_heap = m.device_heap ∧
    (m.emplace_host c obj).active_config_ = m.active_config_ ∧
    (m.emplace_host c obj).is_reset_ = m.is_reset_ := by
  unfold mem.emplace_host
  cases hl : m.host_memories_.lookup c with
  | some p =>
    have hk : c ∈ m.host_memories_.map Prod.fst := by
      rw [← ptr_map.lookup_isSome_iff, hl]; rfl
    rw [if_pos hk]
    exact ⟨hw, rfl, rfl, rfl, rfl, rfl⟩
  | none =>
    have hk : c ∉ m.host_memories_.map Prod.fst := ptr_map.lookup_none_iff.mp hl
    rw [if_neg hk]
    refine ⟨?_, by simp, rfl, rfl, rfl, rfl⟩
    simpa using ptr_map.wf_append hw hl

theorem mem.emplace_device_built (k : build_consts) (m : mem) (c : raptor_criteria_config)
    (obj : device_memory) (hw : m.device_memories_.wf m.device_heap.length)
    (hb : ∀ d ∈ m.device_heap, d.wf k) (ho : obj.wf k) :
    (m.emplace_device c obj).device_memories_.wf (m.emplace_device c obj).device_heap.length ∧
    (m.emplace_device c obj).device_memories_.map Prod.fst
      = (if c ∈ m.device_memories_.map Prod.fst then m.device_memories_.map Prod.fst
         else m.device_memories_.map Prod.fst ++ [c]) ∧
    (∀ d ∈ (m.emplace_device c obj).device_heap, d.wf k) ∧
    (m.emplace_device c obj).host_memories_ = m.host_memories_ ∧
    (m.emplace_device c obj).host_heap = m.host_heap ∧
    (m.emplace_device c obj).active_config_ = m.active_config_ ∧
    (m.emplace_device c obj).is_reset_ = m.is_reset_ := by
  unfold mem.emplace_device
  cases hl : m.device_memories_.lookup c with
  | some p =>
    have hk : c ∈ m.device_memories_.map Prod.fst := by
      rw [← ptr_map.lookup_isSome_iff, hl]; rfl
    rw [if_pos hk]
    exact ⟨hw, rfl, hb, rfl, rfl, rfl, rfl⟩
  | none =>
    have hk : c ∉ m.device_memories_.map Prod.fst := ptr_map.lookup_none_iff.mp hl
    rw [if_neg hk]
    refine ⟨?_, by simp, ?_, rfl, rfl, rfl, rfl⟩
    · simpa using ptr_map.wf_append hw hl
    · intro d hd
      rw [List.mem_append] at hd
      rcases hd with hd | hd
      · exact hb d hd
      · simp only [List.mem_singleton] at hd
        subst hd
        exact ho

/-- The two `emplace` calls keep the maps consistent, add the key when it is
new, and change neither the active configuration nor the reset flag. -/
theorem mem.emplace_memories_built (k : build_consts) (stop_count route_count : Nat)
    (max_add_starts : Nat) (m : mem) (c : raptor_criteria_config) (h : m.built k) :
    (mem.emplace_memories k stop_count route_count max_add_starts m c).built k ∧
    (∀ c1, c1 ∈ (mem.emplace_memories k stop_count route_count max_add_starts m
        c).host_memories_.map Prod.fst ↔ (c1 ∈ m.host_memories_.map Prod.fst ∨ c1 = c)) ∧
    (mem.emplace_memories k stop_count route_count max_add_starts m c).active_config_
      = m.active_config_ ∧
    (mem.emplace_memories k stop_count route_count max_add_starts m c).is_reset_
      = m.is_reset_ := by
  unfold mem.emplace_memories
  obtain ⟨h1, h2, h3, h4, h5, h6⟩ :=
    mem.emplace_host_built m c (host_memory.ctor k stop_count c) h.host_wf
  have hd : (m.emplace_host c (host_memory.ctor k stop_count c)).device_memories_.wf
      (m.emplace_host c (host_memory.ctor k stop_count c)).device_heap.length := by
    rw [h3, h4]; exact h.device_wf
  have hb : ∀ d ∈ (m.emplace_host c (host_memory.ctor k stop_count c)).device_heap,
      d.wf k := by
    rw [h4]; exact h.buffers
  obtain ⟨g1, g2, g3, g4, g5, g6, g7⟩ :=
    mem.emplace_device_built k (m.emplace_host c (host_memory.ctor k stop_count c)) c
      (device_memory.ctor k stop_count c route_count max_add_starts) hd hb
      (device_memory.ctor_wf k stop_count c route_count max_add_starts)
  refine ⟨⟨?_, g1, ?_, g3⟩, ?_, by rw [g6, h5], by rw [g7, h6]⟩
  · rw [g4, g5]; exact h1
  · rw [g4, g2, h2, h3, h.same_keys]
  · intro c1
    rw [g4, h2]
    split
    · constructor
      · intro hc; exact Or.inl hc
      · rintro (hc | rfl)
        · exact hc
        · assumption
    · simp

theorem mem.foldl_emplace_built (k : build_consts) (stop_count route_count : Nat)
    (max_add_starts : Nat) (cs : List raptor_criteria_config) :
    ∀ m : mem, m.built k →
      (cs.foldl (INIT_HOST_AND_DEVICE_MEMORY k stop_count route_count max_add_starts)
        m).built k ∧
      (∀ c1, c1 ∈ (cs.foldl
          (INIT_HOST_AND_DEVICE_MEMORY k stop_count route_count max_add_starts)
          m).host_memories_.map Prod.fst ↔ (c1 ∈ m.host_memories_.map Prod.fst ∨ c1 ∈ cs)) ∧
      (cs.foldl (INIT_HOST_AND_DEVICE_MEMORY k stop_count route_count max_add_starts)
        m).active_config_ = m.active_config_ ∧
      (cs.foldl (INIT_HOST_AND_DEVICE_MEMORY k stop_count route_count max_add_starts)
        m).is_reset_ = m.is_reset_ := by
  induction cs with
  | nil => intro m h; exact ⟨h, by simp, rfl, rfl⟩
  | cons c cs ih =>
    intro m h
    rw [List.foldl_cons, show INIT_HOST_AND_DEVICE_MEMORY k stop_count route_count
      max_add_starts m c = mem.emplace_memories k stop_count route_count max_add_starts m c
      from rfl]
    obtain ⟨h1, h2, h3, h4⟩ :=
      mem.emplace_memories_built k stop_count route_count max_add_starts m c h
    obtain ⟨g1, g2, g3, g4⟩ := ih _ h1
    refine ⟨g1, ?_, ?_, ?_⟩
    · intro c1
      rw [g2 c1, h2 c1, List.mem_cons]
      tauto
    · rw [g3]; exact h3
    · rw [g4]; exact h4

theorem mem.ctor_from (k : build_consts) (stop_count route_count : Nat)
    (max_add_starts : Nat) (m0 m2 : mem) (h0 : m0.built k) (he : m0.host_memories_ = [])
    (hc : m0.active_config_ = raptor_criteria_config.Default) (hr : m0.is_reset_ = true)
    (hm2 : m2 = k.configs_wo_default.foldl
      (INIT_HOST_AND_DEVICE_MEMORY k stop_count route_count max_add_starts)
      (mem.emplace_memories k stop_count route_count max_add_starts m0
        raptor_criteria_config.Default)) :
    mem.inv k { m2 with
      host_memories_ := (m2.host_memories_.index raptor_criteria_config.Default).2
      device_memories_ := (m2.device_memories_.index raptor_criteria_config.Default).2
      active_host_ := (m2.host_memories_.index raptor_criteria_config.Default).1
      active_device_ := (m2.device_memories_.index raptor_criteria_config.Default).1 } ∧
    (∀ c, c ∈ (m2.host_memories_.index raptor_criteria_config.Default).2.map Prod.fst
      ↔ c ∈ supported k) ∧
    m2.active_config_ = raptor_criteria_config.Default ∧ m2.is_reset_ = true := by
  obtain ⟨h1, h2, h3, h4⟩ := mem.emplace_memories_built k stop_count route_count
    max_add_starts m0 raptor_criteria_config.Default h0
  obtain ⟨g1, g2, g3, g4⟩ := mem.foldl_emplace_built k stop_count route_count
    max_add_starts k.configs_wo_default _ h1
  rw [← hm2] at g1 g2 g3 g4
  have hkeys : ∀ c, c ∈ m2.host_memories_.map Prod.fst ↔ c ∈ supported k := by
    intro c
    rw [g2 c, h2 c, he]
    unfold supported
    simp
  have hD := (hkeys raptor_criteria_config.Default).mpr (by simp [supported])
  obtain ⟨ah, hah, _⟩ := ptr_map.wf_key g1.host_wf hD
  obtain ⟨ad, had, _⟩ := ptr_map.wf_key g1.device_wf (g1.same_keys ▸ hD)
  have hcfg : m2.active_config_ = raptor_criteria_config.Default := (g3.trans h3).trans hc
  rw [ptr_map.index_of_key hah, ptr_map.index_of_key had]
  refine ⟨⟨⟨g1.host_wf, g1.device_wf, g1.same_keys, g1.buffers⟩, ?_, ?_⟩, hkeys, hcfg,
    (g4.trans h4).trans hr⟩
  · show m2.host_memories_.lookup m2.active_config_ = some (some ah)
    rw [hcfg]; exact hah
  · show m2.device_memories_.lookup m2.active_config_ = some (some ad)
    rw [hcfg]; exact had

/-- A freshly constructed slot is consistent, has exactly the supported
configurations as keys, and is in state (Default, reset). -/
theorem mem.ctor_inv (k : build_consts) (stop_count route_count : Nat)
    (max_add_starts : Nat) (device_id : Nat) (cpd : Int) :
    (mem.ctor k stop_count route_count max_add_starts device_id cpd).inv k ∧
    (∀ c, c ∈ (mem.ctor k stop_count route_count max_add_starts device_id
        cpd).host_memories_.map Prod.fst ↔ c ∈ supported k) ∧
    (mem.ctor k stop_count route_count max_add_starts device_id cpd).active_config_
      = raptor_criteria_config.Default ∧
    (mem.ctor k stop_count route_count max_add_starts device_id cpd).is_reset_ = true := by
  have h0 : mem.built k
      { host_heap := [], device_heap := [], host_memories_ := [], device_memories_ := []
        context_ := device_context.ctor k device_id cpd
        active_host_ := none, active_device_ := none
        active_config_ := raptor_criteria_config.Default, is_reset_ := true } :=
    ⟨⟨by simp, by simp, by simp⟩, ⟨by simp, by simp, by simp⟩, rfl, by simp⟩
  exact mem.ctor_from k stop_count route_count max_add_starts _ _ h0 rfl rfl rfl rfl

/-! ## Operations of a slot -/

/-- In a consistent slot both active pointers point to objects. -/
theorem mem.inv_active (k : build_consts) (m : mem) (h : m.inv k) :
    ∃ ad ah d hm, m.active_device_ = some ad ∧ m.active_host_ = some ah ∧
      m.device_heap[ad]? = some d ∧ m.host_heap[ah]? = some hm ∧
      m.device_memories_.lookup m.active_config_ = some (some ad) ∧
      m.host_memories_.lookup m.active_config_ = some (some ah) := by
  obtain ⟨ad, had, hlt⟩ := ptr_map.wf_lookup h.built.device_wf h.active_device
  obtain ⟨ah, hah, hlt2⟩ := ptr_map.wf_lookup h.built.host_wf h.active_host
  refine ⟨ad, ah, m.device_heap[ad], m.host_heap[ah], had, hah,
    List.getElem?_eq_getElem hlt, List.getElem?_eq_getElem hlt2, ?_, ?_⟩
  · rw [← had]; exact h.active_device
  · rw [← hah]; exact h.active_host

/-- A state with the same maps and active fields, heaps of the same sizes and
well-sized device buffers is consistent again. -/
theorem mem.inv_of_same_shape (k : build_consts) (m m1 : mem) (h : m.inv k)
    (e1 : m1.host_memories_ = m.host_memories_) (e2 : m1.device_memories_ = m.device_memories_)
    (e3 : m1.host_heap.length = m.host_heap.length)
    (e4 : m1.device_heap.length = m.device_heap.length)
    (e5 : m1.active_host_ = m.active_host_) (e6 : m1.active_device_ = m.active_device_)
    (e7 : m1.active_config_ = m.active_config_) (hb : ∀ d ∈ m1.device_heap, d.wf k) :
    m1.inv k := by
  refine ⟨⟨?_, ?_, ?_, hb⟩, ?_, ?_⟩
  · rw [e1, e3]; exact h.built.host_wf
  · rw [e2, e4]; exact h.built.device_wf
  · rw [e1, e2]; exact h.built.same_keys
  · rw [e1, e5, e7]; exact h.active_host
  · rw [e2, e6, e7]; exact h.active_device

theorem mem.reset_active_spec (k : build_consts) (m : mem) (h : m.inv k) :
    ∃ ad ah d hm, m.active_device_ = some ad ∧ m.active_host_ = some ah ∧
      m.device_heap[ad]? = some d ∧ m.host_heap[ah]? = some hm ∧
      m.reset_active k = .ok { m with
        device_heap := m.device_heap.set ad (d.reset_async k)
        host_heap := m.host_heap.set ah hm.reset
        is_reset_ := true } := by
  obtain ⟨ad, ah, d, hm, h1, h2, h3, h4, _, _⟩ := mem.inv_active k m h
  refine ⟨ad, ah, d, hm, h1, h2, h3, h4, ?_⟩
  unfold mem.reset_active
  rw [h1, h2]
  simp only [h3, h4]

/-- The method `reset_active` succeeds on a consistent slot, keeps it
consistent and changes nothing but the two active objects and the flag. -/
theorem mem.reset_active_inv (k : build_consts) (m : mem) (h : m.inv k) :
    ∃ m1, m.reset_active k = .ok m1 ∧ m1.inv k ∧
      m1.host_memories_ = m.host_memories_ ∧ m1.device_memories_ = m.device_memories_ ∧
      m1.active_host_ = m.active_host_ ∧ m1.active_device_ = m.active_device_ ∧
      m1.active_config_ = m.active_config_ ∧ m1.is_reset_ = true ∧
      m1.context_ = m.context_ := by
  obtain ⟨ad, ah, d, hm, h1, h2, h3, h4, h5⟩ := mem.reset_active_spec k m h
  refine ⟨_, h5, ?_, rfl, rfl, rfl, rfl, rfl, rfl, rfl⟩
  refine mem.inv_of_same_shape k m _ h ?_ ?_ ?_ ?_ ?_ ?_ ?_ ?_ <;> try rfl
  · simp
  · simp
  intro x hx
  rcases List.mem_or_eq_of_mem_set hx with hx | hx
  · exact h.built.buffers x hx
  · rw [hx]
    exact device_memory.reset_async_wf k d (h.built.buffers d (List.getElem?_mem h3))

theorem mem.write_inv (k : build_consts) (m : mem) (w : buffer_write) (h : m.inv k) :
    ∃ m1, m.write w = .ok m1 ∧ m1.inv k ∧
      m1.host_memories_ = m.host_memories_ ∧ m1.device_memories_ = m.device_memories_ ∧
      m1.active_host_ = m.active_host_ ∧ m1.active_device_ = m.active_device_ ∧
      m1.active_config_ = m.active_config_ ∧ m1.is_reset_ = m.is_reset_ ∧
      m1.context_ = m.context_ := by
  obtain ⟨ad, ah, d, hm, h1, h2, h3, h4, _, _⟩ := mem.inv_active k m h
  cases w with
  | device w =>
    refine ⟨{ m with device_heap := m.device_heap.set ad (d.write w) }, ?_, ?_,
      rfl, rfl, rfl, rfl, rfl, rfl, rfl⟩
    · show m.write_device w = _
      unfold mem.write_device
      rw [h1]
      simp only [h3]
    · refine mem.inv_of_same_shape k m _ h ?_ ?_ ?_ ?_ ?_ ?_ ?_ ?_ <;> try rfl
      · simp
      intro x hx
      rcases List.mem_or_eq_of_mem_set hx with hx | hx
      · exact h.built.buffers x hx
      · rw [hx]
        exact device_memory.write_wf k d w (h.built.buffers d (List.getElem?_mem h3))
  | host w =>
    refine ⟨{ m with host_heap := m.host_heap.set ah (hm.write w) }, ?_, ?_,
      rfl, rfl, rfl, rfl, rfl, rfl, rfl⟩
    · show m.write_host w = _
      unfold mem.write_host
      rw [h2]
      simp only [h4]
    · refine mem.inv_of_same_shape k m _ h ?_ ?_ ?_ ?_ ?_ ?_ ?_ ?_ <;> try rfl
      · simp
      · exact h.built.buffers

/-- The second half of `require_active`, after the conditional reset has
produced `mr`: the switch to a configuration that is a key succeeds. -/
theorem mem.require_active_of_first (k : build_consts) (m mr : mem)
    (c : raptor_criteria_config)
    (hfirst : (if !m.is_reset_ then m.reset_active k else .ok m) = .ok mr)
    (h : mr.inv k) (hc : c ∈ mr.host_memories_.map Prod.fst) :
    ∃ m1, m.require_active k c = .ok m1 ∧ m1.inv k ∧
      m1.device_heap = mr.device_heap ∧ m1.host_heap = mr.host_heap ∧
      m1.host_memories_ = mr.host_memories_ ∧ m1.device_memories_ = mr.device_memories_ ∧
      m1.active_config_ = c ∧ m1.is_reset_ = false ∧ m1.context_ = mr.context_ := by
  obtain ⟨ah, hah, hlt⟩ := ptr_map.wf_key h.built.host_wf hc
  obtain ⟨ad, had, hlt2⟩ := ptr_map.wf_key h.built.device_wf (h.built.same_keys ▸ hc)
  unfold mem.require_active
  rw [hfirst]
  simp only [bind, Except.bind]
  by_cases hne : c = mr.active_config_
  · obtain ⟨ad1, ah1, _, _, h1, h2, _, _, _, _⟩ := mem.inv_active k mr h
    have hb : (c != mr.active_config_) = false := by simp [hne]
    have hcond : (mr.active_host_ != none && mr.active_device_ != none) = true := by
      simp [h1, h2]
    refine ⟨{ mr with is_reset_ := false }, ?_, ?_, rfl, rfl, rfl, rfl, hne.symm, rfl, rfl⟩
    · simp only [hb, Bool.false_eq_true, if_false, hcond, if_true]
    · refine mem.inv_of_same_shape k mr _ h ?_ ?_ ?_ ?_ ?_ ?_ ?_ ?_ <;> try rfl
      exact h.built.buffers
  · have hb : (c != mr.active_config_) = true := by simp [hne]
    refine ⟨{ mr with
        active_host_ := some ah
        active_device_ := some ad
        active_config_ := c
        is_reset_ := false }, ?_, ?_, rfl, rfl, rfl, rfl, rfl, rfl, rfl⟩
    · simp [hb, ptr_map.index_of_key hah, ptr_map.index_of_key had]
    · exact ⟨⟨h.built.host_wf, h.built.device_wf, h.built.same_keys, h.built.buffers⟩,
        hah, had⟩

/-- On a consistent slot, `require_active` of a key succeeds: it resets the
active buffers exactly when the slot is dirty, changes no other buffer, keeps
both maps, and ends with `active_config_ = c` and `is_reset_ = false`. -/
theorem mem.require_active_spec (k : build_consts) (m : mem) (c : raptor_criteria_config)
    (h : m.inv k) (hc : c ∈ m.host_memories_.map Prod.fst) :
    ∃ mr m1, ((m.is_reset_ = true ∧ mr = m) ∨
        (m.is_reset_ = false ∧ m.reset_active k = .ok mr)) ∧
      m.require_active k c = .ok m1 ∧ m1.inv k ∧
      m1.device_heap = mr.device_heap ∧ m1.host_heap = mr.host_heap ∧
      m1.host_memories_ = m.host_memories_ ∧ m1.device_memories_ = m.device_memories_ ∧
      m1.active_config_ = c ∧ m1.is_reset_ = false ∧ m1.context_ = m.context_ := by
  cases hr : m.is_reset_ with
  | true =>
    have hfirst : (if !m.is_reset_ then m.reset_active k else .ok m) = .ok m := by
      simp [hr]
    obtain ⟨m1, h1, h2, h3, h4, h5, h6, h7, h8, h9⟩ :=
      mem.require_active_of_first k m m c hfirst h hc
    exact ⟨m, m1, Or.inl ⟨rfl, rfl⟩, h1, h2, h3, h4, h5, h6, h7, h8, h9⟩
  | false =>
    obtain ⟨mr, g1, g2, g3, g4, g5, g6, g7, g8, g9⟩ := mem.reset_active_inv k m h
    have hfirst : (if !m.is_reset_ then m.reset_active k else .ok m) = .ok mr := by
      simp [hr, g1]
    obtain ⟨m1, h1, h2, h3, h4, h5, h6, h7, h8, h9⟩ :=
      mem.require_active_of_first k m mr c hfirst g2 (g3 ▸ hc)
    exact ⟨mr, m1, Or.inr ⟨rfl, g1⟩, h1, h2, h3, h4, h5.trans g3, h6.trans g4, h7, h8,
      h9.trans g9⟩

/-! ## Which buffers an operation touches -/

theorem mem.active_eq_of (k : build_consts) (m : mem) (h : m.inv k) :
    m.active_device = m.device_of m.active_config_ ∧
    m.active_host = m.host_of m.active_config_ := by
  obtain ⟨ad, ah, _, _, h1, h2, _, _, h5, h6⟩ := mem.inv_active k m h
  unfold mem.active_device mem.active_host mem.device_of mem.host_of
  rw [h1, h2, h5, h6]
  exact ⟨rfl, rfl⟩

/-- Replacing the object at the active device address changes the object of
the active configuration and of no other. -/
theorem mem.device_of_update (k : build_consts) (m m1 : mem) (ad : Nat) (x : device_memory)
    (h : m.inv k) (had : m.device_memories_.lookup m.active_config_ = some (some ad))
    (e1 : m1.device_memories_ = m.device_memories_)
    (e2 : m1.device_heap = m.device_heap.set ad x) (c : raptor_criteria_config) :
    m1.device_of c = if c = m.active_config_ then some x else m.device_of c := by
  obtain ⟨_, ha, hlt⟩ := ptr_map.wf_lookup h.built.device_wf had
  cases ha
  unfold mem.device_of
  rw [e1, e2]
  by_cases hc : c = m.active_config_
  · rw [if_pos hc, hc, had]
    simp [hlt]
  · rw [if_neg hc]
    cases hl : m.device_memories_.lookup c with
    | none => rfl
    | some p =>
      cases p with
      | none => rfl
      | some a =>
        have hne : ad ≠ a := by
          intro e
          subst e
          exact hc (ptr_map.wf_inj h.built.device_wf hl had)
        simp [List.getElem?_set, hne]

/-- Replacing the object at the active host address changes the object of
the active configuration and of no other. -/
theorem mem.host_of_update (k : build_consts) (m m1 : mem) (ah : Nat) (x : host_memory)
    (h : m.inv k) (hah : m.host_memories_.lookup m.active_config_ = some (some ah))
    (e1 : m1.host_memories_ = m.host_memories_)
    (e2 : m1.host_heap = m.host_heap.set ah x) (c : raptor_criteria_config) :
    m1.host_of c = if c = m.active_config_ then some x else m.host_of c := by
  obtain ⟨_, ha, hlt⟩ := ptr_map.wf_lookup h.built.host_wf hah
  cases ha
  unfold mem.host_of
  rw [e1, e2]
  by_cases hc : c = m.active_config_
  · rw [if_pos hc, hc, hah]
    simp [hlt]
  · rw [if_neg hc]
    cases hl : m.host_memories_.lookup c with
    | none => rfl
    | some p =>
      cases p with
      | none => rfl
      | some a =>
        have hne : ah ≠ a := by
          intro e
          subst e
          exact hc (ptr_map.wf_inj h.built.host_wf hl hah)
        simp [List.getElem?_set, hne]

theorem mem.of_congr (m m1 : mem) (e1 : m1.device_memories_ = m.device_memories_)
    (e2 : m1.device_heap = m.device_heap) (e3 : m1.host_memories_ = m.host_memories_)
    (e4 : m1.host_heap = m.host_heap) (c : raptor_criteria_config) :
    m1.device_of c = m.device_of c ∧ m1.host_of c = m.host_of c := by
  unfold mem.device_of mem.host_of
  rw [e1, e2, e3, e4]
  exact ⟨rfl, rfl⟩

/-- The method `reset_active` resets the two objects of the active
configuration and leaves the objects of every other configuration alone. -/
theorem mem.reset_active_frame (k : build_consts) (m m1 : mem) (h : m.inv k)
    (hr : m.reset_active k = .ok m1) (c : raptor_criteria_config) :
    m1.device_of c = (if c = m.active_config_
      then (m.device_of c).map (device_memory.reset_async k) else m.device_of c) ∧
    m1.host_of c = (if c = m.active_config_
      then (m.host_of c).map host_memory.reset else m.host_of c) := by
  obtain ⟨ad, ah, d, hm, h1, h2, h3, h4, h5, h6⟩ := mem.inv_active k m h
  obtain ⟨ad1, ah1, d1, hm1, g1, g2, g3, g4, g5⟩ := mem.reset_active_spec k m h
  rw [h1] at g1; cases g1
  rw [h2] at g2; cases g2
  rw [h3] at g3; cases g3
  rw [h4] at g4; cases g4
  rw [g5] at hr
  have e := (Except.ok.inj hr).symm
  have e1 : m1.device_memories_ = m.device_memories_ := by rw [e]
  have e2 : m1.device_heap = m.device_heap.set ad (d.reset_async k) := by rw [e]
  have e3 : m1.host_memories_ = m.host_memories_ := by rw [e]
  have e4 : m1.host_heap = m.host_heap.set ah hm.reset := by rw [e]
  rw [mem.device_of_update k m m1 ad _ h h5 e1 e2 c, mem.host_of_update k m m1 ah _ h h6 e3 e4 c]
  constructor
  · by_cases hc : c = m.active_config_
    · rw [if_pos hc, if_pos hc, hc]
      simp [mem.device_of, h5, h3]
    · rw [if_neg hc, if_neg hc]
  · by_cases hc : c = m.active_config_
    · rw [if_pos hc, if_pos hc, hc]
      simp [mem.host_of, h6, h4]
    · rw [if_neg hc, if_neg hc]

/-- A write into the active buffers leaves the objects of every other
configuration alone. -/
theorem mem.write_frame (k : build_consts) (m m1 : mem) (w : buffer_write) (h : m.inv k)
    (hw : m.write w = .ok m1) (c : raptor_criteria_config) (hc : c ≠ m.active_config_) :
    m1.device_of c = m.device_of c ∧ m1.host_of c = m.host_of c := by
  obtain ⟨ad, ah, d, hm, h1, h2, h3, h4, h5, h6⟩ := mem.inv_active k m h
  cases w with
  | device w =>
    have e0 : m.write (.device w)
        = .ok { m with device_heap := m.device_heap.set ad (d.write w) } := by
      show m.write_device w = _
      unfold mem.write_device
      rw [h1]
      simp only [h3]
    rw [e0] at hw
    have e := (Except.ok.inj hw).symm
    have e1 : m1.device_memories_ = m.device_memories_ := by rw [e]
    have e2 : m1.device_heap = m.device_heap.set ad (d.write w) := by rw [e]
    have e3 : m1.host_memories_ = m.host_memories_ := by rw [e]
    have e4 : m1.host_heap = m.host_heap := by rw [e]
    refine ⟨?_, ?_⟩
    · rw [mem.device_of_update k m m1 ad _ h h5 e1 e2 c, if_neg hc]
    · unfold mem.host_of
      rw [e3, e4]
  | host w =>
    have e0 : m.write (.host w)
        = .ok { m with host_heap := m.host_heap.set ah (hm.write w) } := by
      show m.write_host w = _
      unfold mem.write_host
      rw [h2]
      simp only [h4]
    rw [e0] at hw
    have e := (Except.ok.inj hw).symm
    have e1 : m1.device_memories_ = m.device_memories_ := by rw [e]
    have e2 : m1.device_heap = m.device_heap := by rw [e]
    have e3 : m1.host_memories_ = m.host_memories_ := by rw [e]
    have e4 : m1.host_heap = m.host_heap.set ah (hm.write w) := by rw [e]
    refine ⟨?_, ?_⟩
    · unfold mem.device_of
      rw [e1, e2]
    · rw [mem.host_of_update k m m1 ah _ h h6 e3 e4 c, if_neg hc]

theorem mem.writes_spec (k : build_consts) (ws : List buffer_write) :
    ∀ m : mem, m.inv k →
      ∃ m1, m.writes ws = .ok m1 ∧ m1.inv k ∧
        m1.host_memories_ = m.host_memories_ ∧ m1.device_memories_ = m.device_memories_ ∧
        m1.active_config_ = m.active_config_ ∧ m1.is_reset_ = m.is_reset_ ∧
        ∀ c, c ≠ m.active_config_ →
          m1.device_of c = m.device_of c ∧ m1.host_of c = m.host_of c := by
  induction ws with
  | nil =>
    intro m h
    exact ⟨m, rfl, h, rfl, rfl, rfl, rfl, fun _ _ => ⟨rfl, rfl⟩⟩
  | cons w ws ih =>
    intro m h
    obtain ⟨m1, h1, h2, h3, h4, _, _, h7, h8, _⟩ := mem.write_inv k m w h
    obtain ⟨m2, g1, g2, g3, g4, g5, g6, g7⟩ := ih m1 h2
    refine ⟨m2, ?_, g2, g3.trans h3, g4.trans h4, g5.trans h7, g6.trans h8, ?_⟩
    · show (m.write w >>= fun m1 => m1.writes ws) = _
      rw [h1]
      exact g1
    · intro c hc
      obtain ⟨f1, f2⟩ := mem.write_frame k m m1 w h h1 c hc
      obtain ⟨f3, f4⟩ := g7 c (by rw [h7]; exact hc)
      exact ⟨f3.trans f1, f4.trans f2⟩

/-- On a consistent slot `require_active` of a key changes no buffer except
that it resets the two objects of the previously active configuration when
the slot was dirty. -/
theorem mem.require_active_frame (k : build_consts) (m : mem) (c : raptor_criteria_config)
    (h : m.inv k) (hc : c ∈ m.host_memories_.map Prod.fst) :
    ∃ m1, m.require_active k c = .ok m1 ∧ m1.inv k ∧
      m1.host_memories_ = m.host_memories_ ∧ m1.device_memories_ = m.device_memories_ ∧
      m1.active_config_ = c ∧ m1.is_reset_ = false ∧
      ∀ c1,
        m1.device_of c1 = (if c1 = m.active_config_ ∧ m.is_reset_ = false
          then (m.device_of c1).map (device_memory.reset_async k) else m.device_of c1) ∧
        m1.host_of c1 = (if c1 = m.active_config_ ∧ m.is_reset_ = false
          then (m.host_of c1).map host_memory.reset else m.host_of c1) := by
  obtain ⟨mr, m1, hmr, h1, h2, h3, h4, h5, h6, h7, h8, _⟩ :=
    mem.require_active_spec k m c h hc
  refine ⟨m1, h1, h2, h5, h6, h7, h8, fun c1 => ?_⟩
  rcases hmr with ⟨hclean, rfl⟩ | ⟨hdirty, hreset⟩
  · have hn : ¬ (c1 = mr.active_config_ ∧ mr.is_reset_ = false) := by
      rw [hclean]; simp
    rw [if_neg hn, if_neg hn]
    exact mem.of_congr mr m1 h6 h3 h5 h4 c1
  · obtain ⟨_, _, g3, g4, _⟩ := mem.reset_active_inv k m h
    obtain ⟨mr1, g1, g2, g3, g4, _⟩ := mem.reset_active_inv k m h
    rw [hreset] at g1
    cases g1
    obtain ⟨f1, f2⟩ := mem.reset_active_frame k m mr h hreset c1
    obtain ⟨e1, e2⟩ := mem.of_congr mr m1 (h6.trans g4.symm) h3 (h5.trans g3.symm) h4 c1
    rw [e1, e2, f1, f2]
    by_cases hc1 : c1 = m.active_config_
    · rw [if_pos hc1, if_pos hc1, if_pos ⟨hc1, hdirty⟩, if_pos ⟨hc1, hdirty⟩]
      exact ⟨rfl, rfl⟩
    · rw [if_neg hc1, if_neg hc1, if_neg (fun hh => hc1 hh.1), if_neg (fun hh => hc1 hh.1)]
      exact ⟨rfl, rfl⟩

/-! ## Reset, isolation and the slot state machine -/

/-- The method `reset_active` succeeds on a consistent slot and leaves it
clean, whatever the buffers held. -/
theorem mem.reset_active_clean (k : build_consts) (m : mem) (h : m.inv k) :
    ∃ m1, m.reset_active k = .ok m1 ∧ m1.clean k := by
  obtain ⟨ad, ah, d, hm, h1, h2, h3, h4, h5⟩ := mem.reset_active_spec k m h
  have hwf := h.built.buffers d (List.getElem?_mem h3)
  obtain ⟨w1, w2, w3, w4, _⟩ := hwf
  have hlt : ad < m.device_heap.length := by
    rcases Nat.lt_or_ge ad m.device_heap.length with hh | hh
    · exact hh
    · rw [List.getElem?_eq_none hh] at h3; cases h3
  have hlt2 : ah < m.host_heap.length := by
    rcases Nat.lt_or_ge ah m.host_heap.length with hh | hh
    · exact hh
    · rw [List.getElem?_eq_none hh] at h4; cases h4
  refine ⟨_, h5, rfl, d.reset_async k, hm.reset, ?_, ?_, ?_, ?_, rfl, rfl, ?_, ?_, rfl⟩
  · show (match m.active_device_ with
      | some a => (m.device_heap.set ad (d.reset_async k))[a]?
      | none => none) = _
    rw [h1]
    simp [hlt]
  · show (match m.active_host_ with
      | some a => (m.host_heap.set ah hm.reset)[a]?
      | none => none) = _
    rw [h2]
    simp [hlt2]
  · exact cudaMemsetAsync_full _ _ _ w3
  · exact cudaMemsetAsync_full _ _ _ w4
  · exact cudaMemsetAsync_full _ _ _ w1
  · exact cudaMemsetAsync_full _ _ _ w2

/-- C6: on every consistent slot, whatever its buffers hold, `reset_active`
succeeds and leaves the active device memory with both mark bitsets zero
over their full byte size, the touched flag false, `additional_start_count_`
invalid, every byte of the result and scratch arrays 0xFF, the host flag
`any_station_marked` false and `is_reset_` true; the destructor step of a
`loaned_mem` leaves its slot in that state. -/
theorem reset_active_leaves_clean (k : build_consts) (m : mem) (h : m.inv k) :
    (∃ m1, m.reset_active k = .ok m1 ∧ m1.is_reset_ = true ∧
      ∃ d hm, m1.active_device = some d ∧ m1.active_host = some hm ∧
        d.station_marks_ = List.replicate d.get_station_mark_bytes 0 ∧
        d.route_marks_ = List.replicate d.get_route_mark_bytes 0 ∧
        d.any_station_marked_ = false ∧
        d.additional_start_count_ = k.invalid_add_start_count ∧
        d.result_alloc = List.replicate (d.get_result_bytes k) 0xFF ∧
        d.footpaths_scratchpad_ = List.replicate (d.get_scratchpad_bytes k) 0xFF ∧
        hm.any_station_marked_ = false) ∧
    (∀ (s s1 : pool) (p i : Nat), s.loans[p]? = some { idx := i, phase := .live } →
      s.store.memory_[i]? = some m → s.step k (.destroy p) = some s1 →
      ∃ m1, s1.store.memory_[i]? = some m1 ∧ m1.clean k) := by
  obtain ⟨m1, h5, hclean⟩ := mem.reset_active_clean k m h
  refine ⟨⟨m1, h5, hclean⟩, ?_⟩
  intro s s1 p i hl hmi hstep
  have hi : i < s.store.memory_.length := by
    rcases Nat.lt_or_ge i s.store.memory_.length with hh | hh
    · exact hh
    · rw [List.getElem?_eq_none hh] at hmi; cases hmi
  unfold pool.step at hstep
  simp only [hl, hmi, h5, pool.update_slot, Option.map_some', Option.some.injEq] at hstep
  subst hstep
  refine ⟨_, ?_, hclean⟩
  simp [hi]

/-- Every state of a slot reachable from a consistent one is consistent and
has the maps and the context it started with. -/
theorem mem.reachable_keeps_inv (k : build_consts) (m0 m : mem) (h0 : m0.inv k)
    (hk : ∀ c, c ∈ supported k → c ∈ m0.host_memories_.map Prod.fst)
    (hr : mem.reachable k m0 m) :
    m.inv k ∧ m.host_memories_ = m0.host_memories_ ∧
      m.device_memories_ = m0.device_memories_ ∧ m.context_ = m0.context_ := by
  induction hr with
  | fresh => exact ⟨h0, rfl, rfl, rfl⟩
  | reset_active _ hstep ih =>
    obtain ⟨i1, i2, i3, i4⟩ := ih
    obtain ⟨m1, g1, g2, g3, g4, _, _, _, _, g9⟩ := mem.reset_active_inv k _ i1
    rw [g1] at hstep
    cases hstep
    exact ⟨g2, g3.trans i2, g4.trans i3, g9.trans i4⟩
  | require_active c _ hc hstep ih =>
    obtain ⟨i1, i2, i3, i4⟩ := ih
    obtain ⟨_, m1, _, g1, g2, _, _, g5, g6, _, _, g9⟩ :=
      mem.require_active_spec k _ c i1 (i2 ▸ hk c hc)
    rw [g1] at hstep
    cases hstep
    exact ⟨g2, g5.trans i2, g6.trans i3, g9.trans i4⟩
  | write w _ hstep ih =>
    obtain ⟨i1, i2, i3, i4⟩ := ih
    obtain ⟨m1, g1, g2, g3, g4, _, _, _, _, g9⟩ := mem.write_inv k _ w i1
    rw [g1] at hstep
    cases hstep
    exact ⟨g2, g3.trans i2, g4.trans i3, g9.trans i4⟩

/-- C8: a freshly constructed `mem` is in state (Default, reset).  In every
state reachable from it by `reset_active`, by `require_active` of a supported
configuration and by writes into the active buffers, the active pointers are
not null, point to objects and are the entries of the two maps under
`active_config_`; both maps are the ones the constructor built and their keys
are exactly the supported configurations; and `require_active(c)` of a
supported `c` passes the null-pointer verification, resets the previously
active buffers when the slot is dirty and touches no buffer when it is not,
and ends with `active_config_ = c` and `is_reset_ = false`. -/
theorem slot_state_machine (k : build_consts) (stop_count route_count : Nat)
    (max_add_starts : Nat) (device_id : Nat) (cpd : Int) (m : mem)
    (hr : mem.reachable k
      (mem.ctor k stop_count route_count max_add_starts device_id cpd) m) :
    ((mem.ctor k stop_count route_count max_add_starts device_id cpd).active_config_
        = raptor_criteria_config.Default ∧
      (mem.ctor k stop_count route_count max_add_starts device_id cpd).is_reset_ = true) ∧
    (m.active_host_ ≠ none ∧ m.active_device_ ≠ none ∧
      (∃ d h, m.active_device = some d ∧ m.active_host = some h) ∧
      m.host_memories_.lookup m.active_config_ = some m.active_host_ ∧
      m.device_memories_.lookup m.active_config_ = some m.active_device_) ∧
    (m.host_memories_
        = (mem.ctor k stop_count route_count max_add_starts device_id cpd).host_memories_ ∧
      m.device_memories_
        = (mem.ctor k stop_count route_count max_add_starts device_id cpd).device_memories_) ∧
    (∀ c, (c ∈ m.host_memories_.map Prod.fst ↔ c ∈ supported k) ∧
      (c ∈ m.device_memories_.map Prod.fst ↔ c ∈ supported k)) ∧
    (∀ c, c ∈ supported k →
      ∃ mr m1, ((m.is_reset_ = true ∧ mr = m) ∨
          (m.is_reset_ = false ∧ m.reset_active k = .ok mr)) ∧
        m.require_active k c = .ok m1 ∧
        m1.device_heap = mr.device_heap ∧ m1.host_heap = mr.host_heap ∧
        m1.active_config_ = c ∧ m1.is_reset_ = false) := by
  obtain ⟨c1, c2, c3, c4⟩ :=
    mem.ctor_inv k stop_count route_count max_add_starts device_id cpd
  obtain ⟨i1, i2, i3, _⟩ := mem.reachable_keeps_inv k _ m c1 (fun c hc => (c2 c).mpr hc) hr
  obtain ⟨ad, ah, d, hm, h1, h2, h3, h4, _, _⟩ := mem.inv_active k m i1
  have hkeys : ∀ c, c ∈ m.host_memories_.map Prod.fst ↔ c ∈ supported k := by
    intro c; rw [i2]; exact c2 c
  refine ⟨⟨c3, c4⟩, ⟨by rw [h2]; simp, by rw [h1]; simp, ⟨d, hm, ?_, ?_⟩,
    i1.active_host, i1.active_device⟩, ⟨i2, i3⟩, ?_, ?_⟩
  · unfold mem.active_device; rw [h1]; exact h3
  · unfold mem.active_host; rw [h2]; exact h4
  · intro c
    exact ⟨hkeys c, by rw [← i1.built.same_keys]; exact hkeys c⟩
  · intro c hc
    obtain ⟨mr, m1, g0, g1, _, g3, g4, _, _, g7, g8, _⟩ :=
      mem.require_active_spec k m c i1 ((hkeys c).mpr hc)
    exact ⟨mr, m1, g0, g1, g3, g4, g7, g8⟩

/-- C7: on a consistent slot `require_active` of a key changes no buffer
except that it resets the two objects of the previously active configuration
when the slot was dirty.  Hence for two distinct keys `A` and `B`: after
`require_active(A)`, writes under `A`, `require_active(B)`, writes into the
active (`B`) buffers and `require_active(A)` again, all of which succeed, the
buffers of `A` are what the reset of `A` inside `require_active(B)` left: they
hold nothing written while `B` was active, and they are the active buffers. -/
theorem configuration_isolation (k : build_consts) (m : mem) (h : m.inv k)
    (A B : raptor_criteria_config)
    (hA : A ∈ m.host_memories_.map Prod.fst) (hB : B ∈ m.host_memories_.map Prod.fst)
    (hAB : A ≠ B) (wsA wsB : List buffer_write) :
    (∀ c, c ∈ m.host_memories_.map Prod.fst →
      ∃ m1, m.require_active k c = .ok m1 ∧
        ∀ c1,
          m1.device_of c1 = (if c1 = m.active_config_ ∧ m.is_reset_ = false
            then (m.device_of c1).map (device_memory.reset_async k) else m.device_of c1) ∧
          m1.host_of c1 = (if c1 = m.active_config_ ∧ m.is_reset_ = false
            then (m.host_of c1).map host_memory.reset else m.host_of c1)) ∧
    (∃ m1 m2 m3 m4 m5 dA hA,
      m.require_active k A = .ok m1 ∧ m1.writes wsA = .ok m2 ∧
      m2.require_active k B = .ok m3 ∧ m3.writes wsB = .ok m4 ∧
      m4.require_active k A = .ok m5 ∧
      m2.device_of A = some dA ∧ m2.host_of A = some hA ∧
      m3.device_of A = some (dA.reset_async k) ∧ m3.host_of A = some hA.reset ∧
      m5.device_of A = some (dA.reset_async k) ∧ m5.host_of A = some hA.reset ∧
      m5.active_config_ = A ∧
      m5.active_device = m5.device_of A ∧ m5.active_host = m5.host_of A) := by
  constructor
  · intro c hc
    obtain ⟨m1, g1, _, _, _, _, _, g7⟩ := mem.require_active_frame k m c h hc
    exact ⟨m1, g1, g7⟩
  · obtain ⟨m1, a1, a2, a3, a4, a5, a6, _⟩ := mem.require_active_frame k m A h hA
    obtain ⟨m2, b1, b2, b3, b4, b5, b6, _⟩ := mem.writes_spec k wsA m1 a2
    have hA2 : A ∈ m2.host_memories_.map Prod.fst := by rw [b3, a3]; exact hA
    have hB2 : B ∈ m2.host_memories_.map Prod.fst := by rw [b3, a3]; exact hB
    have hact2 : m2.active_config_ = A := b5.trans a5
    have hdirty2 : m2.is_reset_ = false := b6.trans a6
    obtain ⟨ad, ah, dA, hmA, p1, p2, p3, p4, _, _⟩ := mem.inv_active k m2 b2
    obtain ⟨q1, q2⟩ := mem.active_eq_of k m2 b2
    have hdA : m2.device_of A = some dA := by
      rw [← hact2, ← q1]; unfold mem.active_device; rw [p1]; exact p3
    have hhA : m2.host_of A = some hmA := by
      rw [← hact2, ← q2]; unfold mem.active_host; rw [p2]; exact p4
    obtain ⟨m3, c1, c2, c3, c4, c5, c6, c7⟩ := mem.require_active_frame k m2 B b2 hB2
    have hd3 : m3.device_of A = some (dA.reset_async k) := by
      rw [(c7 A).1, if_pos ⟨hact2.symm, hdirty2⟩, hdA]; rfl
    have hh3 : m3.host_of A = some hmA.reset := by
      rw [(c7 A).2, if_pos ⟨hact2.symm, hdirty2⟩, hhA]; rfl
    obtain ⟨m4, d1, d2, d3, d4, d5, d6, d7⟩ := mem.writes_spec k wsB m3 c2
    have hact4 : m4.active_config_ = B := d5.trans c5
    obtain ⟨e1, e2⟩ := d7 A (by rw [c5]; exact hAB)
    have hA4 : A ∈ m4.host_memories_.map Prod.fst := by rw [d3, c3]; exact hA2
    obtain ⟨m5, f1, f2, f3, f4, f5, f6, f7⟩ := mem.require_active_frame k m4 A d2 hA4
    have hn : ¬ (A = m4.active_config_ ∧ m4.is_reset_ = false) := by
      rw [hact4]; exact fun hh => hAB hh.1
    obtain ⟨r1, r2⟩ := mem.active_eq_of k m5 f2
    refine ⟨m1, m2, m3, m4, m5, dA, hmA, a1, b1, c1, d1, f1, hdA, hhA, hd3, hh3, ?_, ?_, f5,
      ?_, ?_⟩
    · rw [(f7 A).1, if_neg hn, e1, hd3]
    · rw [(f7 A).2, if_neg hn, e2, hh3]
    · rw [r1, f5]
    · rw [r2, f5]

theorem sample_mem_active_eq :
    sample_mem.require_active sample_consts .Default = .ok sample_mem_active := by
  rfl

theorem sample_mem_dirty_eq :
    sample_mem_active.writes
      [.device (.result 0 7), .device (.station_marks 1 255), .host (.any_station_marked true)]
      = .ok sample_mem_dirty := by
  rfl

theorem sample_mem_inv : sample_mem.inv sample_consts ∧
    ∀ c, c ∈ sample_mem.host_memories_.map Prod.fst ↔ c ∈ supported sample_consts :=
  ⟨(mem.ctor_inv sample_consts 1 1 1 0 2).1, (mem.ctor_inv sample_consts 1 1 1 0 2).2.1⟩

theorem sample_mem_active_inv : sample_mem_active.inv sample_consts ∧
    sample_mem_active.host_memories_ = sample_mem.host_memories_ := by
  obtain ⟨_, m1, _, g1, g2, _, _, g5, _⟩ :=
    mem.require_active_spec sample_consts sample_mem .Default sample_mem_inv.1
      ((sample_mem_inv.2 _).mpr (by decide))
  rw [sample_mem_active_eq] at g1
  cases g1
  exact ⟨g2, g5⟩

theorem sample_mem_dirty_inv : sample_mem_dirty.inv sample_consts ∧
    sample_mem_dirty.host_memories_ = sample_mem.host_memories_ := by
  obtain ⟨m1, g1, g2, g3, _⟩ :=
    mem.writes_spec sample_consts
      [.device (.result 0 7), .device (.station_marks 1 255), .host (.any_station_marked true)]
      sample_mem_active sample_mem_active_inv.1
  rw [sample_mem_dirty_eq] at g1
  cases g1
  exact ⟨g2, g3.trans sample_mem_active_inv.2⟩

/-- C6 (witness): the sample slot after `require_active(Default)` and three
writes of a query is dirty, and `reset_active` cleans it. -/
theorem reset_active_leaves_clean_witness :
    sample_mem_dirty.is_reset_ = false ∧
    sample_mem_dirty.active_device.map (fun d => d.station_marks_) = some [0, 255, 0, 0] ∧
    ∃ m1, sample_mem_dirty.reset_active sample_consts = .ok m1 ∧ m1.clean sample_consts :=
  ⟨by decide, by decide,
    (reset_active_leaves_clean sample_consts sample_mem_dirty sample_mem_dirty_inv.1).1⟩

/-- C8 (witness): the sample slot after `require_active(Default)` is a
reachable state; its active pointers are not null. -/
theorem slot_state_machine_witness :
    mem.reachable sample_consts (mem.ctor sample_consts 1 1 1 0 2) sample_mem_active ∧
    sample_mem_active.active_host_ ≠ none ∧ sample_mem_active.active_device_ ≠ none :=
  have hr : mem.reachable sample_consts (mem.ctor sample_consts 1 1 1 0 2) sample_mem_active :=
    mem.reachable.require_active .Default mem.reachable.fresh (by decide) sample_mem_active_eq
  have h := slot_state_machine sample_consts 1 1 1 0 2 sample_mem_active hr
  ⟨hr, h.2.1.1, h.2.1.2.1⟩

/-- C7 (witness): the sample slot, `A = Default`, `B = Other 1`, one write
under `A` and two writes under `B`. -/
theorem configuration_isolation_witness :
    ∃ m1 m2 m3 m4 m5 dA hA,
      sample_mem.require_active sample_consts .Default = .ok m1 ∧
      m1.writes [.device (.result 0 7)] = .ok m2 ∧
      m2.require_active sample_consts (.Other 1) = .ok m3 ∧
      m3.writes [.device (.station_marks 0 1), .host (.any_station_marked true)] = .ok m4 ∧
      m4.require_active sample_consts .Default = .ok m5 ∧
      m2.device_of .Default = some dA ∧ m2.host_of .Default = some hA ∧
      m3.device_of .Default = some (dA.reset_async sample_consts) ∧
      m3.host_of .Default = some hA.reset ∧
      m5.device_of .Default = some (dA.reset_async sample_consts) ∧
      m5.host_of .Default = some hA.reset ∧
      m5.active_config_ = .Default ∧
      m5.active_device = m5.device_of .Default ∧ m5.active_host = m5.host_of .Default :=
  (configuration_isolation sample_consts sample_mem sample_mem_inv.1 .Default (.Other 1)
    ((sample_mem_inv.2 _).mpr (by decide)) ((sample_mem_inv.2 _).mpr (by decide))
    (by decide) [.device (.result 0 7)]
    [.device (.station_marks 0 1), .host (.any_station_marked true)]).2

/-! ## The pool -/

theorem mem.emplace_memories_all (k : build_consts) (stop_count route_count : Nat)
    (max_add_starts : Nat) (P : device_memory → Prop) (Q : host_memory → Prop)
    (hP : ∀ c, P (device_memory.ctor k stop_count c route_count max_add_starts))
    (hQ : ∀ c, Q (host_memory.ctor k stop_count c)) (m : mem) (c : raptor_criteria_config)
    (h : (∀ d ∈ m.device_heap, P d) ∧ (∀ x ∈ m.host_heap, Q x)) :
    (∀ d ∈ (mem.emplace_memories k stop_count route_count max_add_starts m c).device_heap,
      P d) ∧
    (∀ x ∈ (mem.emplace_memories k stop_count route_count max_add_starts m c).host_heap,
      Q x) := by
  unfold mem.emplace_memories mem.emplace_device mem.emplace_host
  cases m.host_memories_.lookup c <;> cases hl : m.device_memories_.lookup c <;>
    simp only [hl] <;> refine ⟨?_, ?_⟩ <;> intro x hx <;>
    first
      | exact h.1 x hx
      | exact h.2 x hx
      | (rw [List.mem_append] at hx
         rcases hx with hx | hx
         · first | exact h.1 x hx | exact h.2 x hx
         · simp only [List.mem_singleton] at hx
           subst hx
           first | exact hP c | exact hQ c)

theorem mem.foldl_emplace_all (k : build_consts) (stop_count route_count : Nat)
    (max_add_starts : Nat) (P : device_memory → Prop) (Q : host_memory → Prop)
    (hP : ∀ c, P (device_memory.ctor k stop_count c route_count max_add_starts))
    (hQ : ∀ c, Q (host_memory.ctor k stop_count c)) (cs : List raptor_criteria_config) :
    ∀ m : mem, ((∀ d ∈ m.device_heap, P d) ∧ (∀ x ∈ m.host_heap, Q x)) →
      (∀ d ∈ (cs.foldl (INIT_HOST_AND_DEVICE_MEMORY k stop_count route_count max_add_starts)
        m).device_heap, P d) ∧
      (∀ x ∈ (cs.foldl (INIT_HOST_AND_DEVICE_MEMORY k stop_count route_count max_add_starts)
        m).host_heap, Q x) := by
  induction cs with
  | nil => intro m h; exact h
  | cons c cs ih =>
    intro m h
    rw [List.foldl_cons]
    exact ih _ (mem.emplace_memories_all k stop_count route_count max_add_starts P Q hP hQ
      m c h)

/-- Every object of a freshly constructed slot is as its constructor left it. -/
theorem mem.ctor_all (k : build_consts) (stop_count route_count : Nat)
    (max_add_starts : Nat) (device_id : Nat) (cpd : Int)
    (P : device_memory → Prop) (Q : host_memory → Prop)
    (hP : ∀ c, P (device_memory.ctor k stop_count c route_count max_add_starts))
    (hQ : ∀ c, Q (host_memory.ctor k stop_count c)) :
    (∀ d ∈ (mem.ctor k stop_count route_count max_add_starts device_id cpd).device_heap,
      P d) ∧
    (∀ x ∈ (mem.ctor k stop_count route_count max_add_starts device_id cpd).host_heap,
      Q x) := by
  have h0 := mem.emplace_memories_all k stop_count route_count max_add_starts P Q hP hQ
    { host_heap := [], device_heap := [], host_memories_ := [], device_memories_ := []
      context_ := device_context.ctor k device_id cpd
      active_host_ := none, active_device_ := none
      active_config_ := raptor_criteria_config.Default, is_reset_ := true }
    raptor_criteria_config.Default ⟨by simp, by simp⟩
  exact mem.foldl_emplace_all k stop_count route_count max_add_starts P Q hP hQ
    k.configs_wo_default _ h0

/-- A freshly constructed slot is clean. -/
theorem mem.ctor_clean (k : build_consts) (stop_count route_count : Nat)
    (max_add_starts : Nat) (device_id : Nat) (cpd : Int) :
    (mem.ctor k stop_count route_count max_add_starts device_id cpd).clean k := by
  obtain ⟨hinv, _, _, hreset⟩ :=
    mem.ctor_inv k stop_count route_count max_add_starts device_id cpd
  obtain ⟨ad, ah, d, hm, h1, h2, h3, h4, _, _⟩ := mem.inv_active k _ hinv
  obtain ⟨hd, hh⟩ := mem.ctor_all k stop_count route_count max_add_starts device_id cpd
    (fun d => d.station_marks_ = List.replicate d.get_station_mark_bytes 0 ∧
      d.route_marks_ = List.replicate d.get_route_mark_bytes 0 ∧
      d.any_station_marked_ = false ∧
      d.additional_start_count_ = k.invalid_add_start_count ∧
      d.result_alloc = List.replicate (d.get_result_bytes k) 0xFF ∧
      d.footpaths_scratchpad_ = List.replicate (d.get_scratchpad_bytes k) 0xFF)
    (fun x => x.any_station_marked_ = false)
    (fun c => ⟨cudaMemsetAsync_full _ _ _ (List.length_replicate _ _),
      cudaMemsetAsync_full _ _ _ (List.length_replicate _ _), rfl, rfl,
      cudaMemsetAsync_full _ _ _ (List.length_replicate _ _),
      cudaMemsetAsync_full _ _ _ (List.length_replicate _ _)⟩)
    (fun _ => rfl)
  obtain ⟨p1, p2, p3, p4, p5, p6⟩ := hd d (List.getElem?_mem h3)
  refine ⟨hreset, d, hm, ?_, ?_, p1, p2, p3, p4, p5, p6, hh hm (List.getElem?_mem h4)⟩
  · unfold mem.active_device; rw [h1]; exact h3
  · unfold mem.active_host; rw [h2]; exact h4

theorem split_at {α : Type} (l : List α) :
    ∀ (p : Nat) (a : α), l[p]? = some a →
      ∃ pre post, l = pre ++ a :: post ∧ (∀ b, l.set p b = pre ++ b :: post) ∧
        l.eraseIdx p = pre ++ post := by
  induction l with
  | nil => intro p a h; simp at h
  | cons x xs ih =>
    intro p a h
    cases p with
    | zero =>
      simp only [List.getElem?_cons_zero, Option.some.injEq] at h
      subst h
      exact ⟨[], xs, rfl, fun _ => rfl, rfl⟩
    | succ p =>
      simp only [List.getElem?_cons_succ] at h
      obtain ⟨pre, post, e1, e2, e3⟩ := ih p a h
      refine ⟨x :: pre, post, by rw [e1]; rfl, fun b => ?_, ?_⟩
      · simp only [List.set_cons_succ, e2 b, List.cons_append]
      · simp only [List.eraseIdx_cons_succ, e3, List.cons_append]

theorem held_of_split (pre post : List loaned_mem) (a : loaned_mem) (j : Nat) :
    (held_of (pre ++ a :: post)).count j
      = (held_of pre).count j + (if a.holds = true ∧ a.idx = j then 1 else 0)
        + (held_of post).count j := by
  unfold held_of
  rw [List.filter_append, List.map_append, List.count_append, List.filter_cons]
  by_cases hh : a.holds = true
  · rw [if_pos hh, List.map_cons, List.count_cons]
    by_cases hj : a.idx = j
    · simp [hh, hj]
      omega
    · simp [hh, hj]
  · rw [if_neg hh]
    simp [hh]

theorem held_of_append (pre post : List loaned_mem) (j : Nat) :
    (held_of (pre ++ post)).count j = (held_of pre).count j + (held_of post).count j := by
  unfold held_of
  rw [List.filter_append, List.map_append, List.count_append]

theorem held_of_mem (ls : List loaned_mem) (l : loaned_mem) (hl : l ∈ ls)
    (hh : l.holds = true) : 1 ≤ (held_of ls).count l.idx := by
  apply List.count_pos_iff.mpr
  unfold held_of
  exact List.mem_map.mpr ⟨l, List.mem_filter.mpr ⟨hl, hh⟩, rfl⟩

/-- A loan that holds a slot is the only one that does, and the mutex of the
slot is owned. -/
theorem pool.holder_facts (k : build_consts) (s : pool) (h : s.inv k)
    (pre post : List loaned_mem) (a : loaned_mem) (hl : s.loans = pre ++ a :: post)
    (hh : a.holds = true) :
    a.idx < s.store.memory_.length ∧
    s.store.memory_mutexes_[a.idx]? = some true ∧
    (held_of pre).count a.idx = 0 ∧ (held_of post).count a.idx = 0 := by
  have ha : a.idx < s.store.memory_.length := h.bounded a (by rw [hl]; simp)
  have ho := h.owned a.idx ha
  unfold pool.held at ho
  rw [hl, held_of_split, if_pos ⟨hh, rfl⟩] at ho
  by_cases hm : s.store.memory_mutexes_[a.idx]? = some true
  · rw [if_pos hm] at ho
    exact ⟨ha, hm, by omega, by omega⟩
  · rw [if_neg hm] at ho
    omega

/-- A holder replaces its slot by a consistent state: the pool stays
consistent, provided the new state is clean when the holder has finished. -/
theorem pool.inv_set_slot (k : build_consts) (s : pool) (h : s.inv k)
    (pre post : List loaned_mem) (i : Nat) (ph ph1 : loan_phase)
    (hl : s.loans = pre ++ { idx := i, phase := ph } :: post)
    (hph : ph ≠ loan_phase.blocked) (hph1 : ph1 ≠ loan_phase.blocked) (m1 : mem)
    (hm1 : m1.inv k) (hc : ph1 = loan_phase.finished → m1.clean k) :
    pool.inv k { store := { s.store with memory_ := s.store.memory_.set i m1 }
                 loans := pre ++ { idx := i, phase := ph1 } :: post } := by
  have hh : ({ idx := i, phase := ph } : loaned_mem).holds = true := by
    cases ph <;> simp [loaned_mem.holds] at hph ⊢
  have hh1 : ({ idx := i, phase := ph1 } : loaned_mem).holds = true := by
    cases ph1 <;> simp [loaned_mem.holds] at hph1 ⊢
  obtain ⟨hi, hmx, hpre, hpost⟩ := pool.holder_facts k s h pre post _ hl hh
  have hother : ∀ l, l ∈ pre ∨ l ∈ post → l.holds = true → l.idx ≠ i := by
    intro l hl2 hlh e
    rcases hl2 with hl2 | hl2
    · have := held_of_mem pre l hl2 hlh
      rw [e] at this
      simp only at hpre
      omega
    · have := held_of_mem post l hl2 hlh
      rw [e] at this
      simp only at hpost
      omega
  refine ⟨?_, ?_, ?_, ?_, ?_, ?_⟩
  · simpa using h.sizes
  · intro j hj
    have hj1 : j < s.store.memory_.length := by simpa using hj
    have ho := h.owned j hj1
    unfold pool.held at ho ⊢
    rw [hl, held_of_split] at ho
    show (held_of (pre ++ _ :: post)).count j = _
    rw [held_of_split]
    simp only [hh, hh1, true_and] at ho ⊢
    exact ho
  · intro l hl2
    have : l.idx < s.store.memory_.length := by
      simp only [List.mem_append, List.mem_cons] at hl2
      rcases hl2 with hl2 | rfl | hl2
      · exact h.bounded l (by rw [hl]; simp [hl2])
      · exact hi
      · exact h.bounded l (by rw [hl]; simp [hl2])
    simpa using this
  · intro m hm
    rcases List.mem_or_eq_of_mem_set hm with hm | hm
    · exact h.slots m hm
    · rw [hm]; exact hm1
  · intro j m hjm hfree
    have hji : i ≠ j := by
      intro e
      subst e
      simp only at hmx
      rw [hmx] at hfree
      cases hfree
    have : s.store.memory_[j]? = some m := by
      simpa [List.getElem?_set, hji] using hjm
    exact h.free_clean j m this hfree
  · intro l hl2 hfin m hm
    simp only [List.mem_append, List.mem_cons] at hl2
    have hlh : l.holds = true := by simp [loaned_mem.holds, hfin]
    rcases hl2 with hl2 | rfl | hl2
    · have hne := hother l (Or.inl hl2) hlh
      have : s.store.memory_[l.idx]? = some m := by
        simpa [List.getElem?_set, Ne.symm hne] using hm
      exact h.finished_clean l (by rw [hl]; simp [hl2]) hfin m this
    · have e : m = m1 := by
        simp only at hi
        simpa [List.getElem?_set, hi] using hm.symm
      rw [e]
      exact hc hfin
    · have hne := hother l (Or.inr hl2) hlh
      have : s.store.memory_[l.idx]? = some m := by
        simpa [List.getElem?_set, Ne.symm hne] using hm
      exact h.finished_clean l (by rw [hl]; simp [hl2]) hfin m this

/-- For a configuration that is not a key, `operator[]` yields null pointers
and `require_active` ends in the verification failure. -/
theorem mem.require_active_unsupported (k : build_consts) (m : mem)
    (c : raptor_criteria_config) (h : m.inv k) (hc : c ∉ m.host_memories_.map Prod.fst) :
    m.require_active k c
      = .error (.exception "Either active host or active device are null!") := by
  have key : ∀ mr : mem, mr.inv k → mr.host_memories_ = m.host_memories_ →
      (if !m.is_reset_ then m.reset_active k else .ok m) = .ok mr →
      m.require_active k c
        = .error (.exception "Either active host or active device are null!") := by
    intro mr hmr hmaps hfirst
    have hc1 : c ∉ mr.host_memories_.map Prod.fst := by rw [hmaps]; exact hc
    have hne : c ≠ mr.active_config_ := by
      intro e
      apply hc1
      rw [e, ← ptr_map.lookup_isSome_iff, hmr.active_host]
      rfl
    have hl := ptr_map.lookup_none_iff.mpr hc1
    have hb : (c != mr.active_config_) = true := by simp [hne]
    unfold mem.require_active
    rw [hfirst]
    simp only [bind, Except.bind, hb, if_true]
    unfold ptr_map.index
    rw [hl]
    simp
  cases hr : m.is_reset_ with
  | true => exact key m h rfl (by simp [hr])
  | false =>
    obtain ⟨mr, g1, g2, g3, _⟩ := mem.reset_active_inv k m h
    exact key mr g2 g3 (by simp [hr, g1])

/-- Whenever `require_active` returns, the slot is consistent afterwards. -/
theorem mem.require_active_ok_inv (k : build_consts) (m m1 : mem)
    (c : raptor_criteria_config) (h : m.inv k) (hr : m.require_active k c = .ok m1) :
    m1.inv k := by
  by_cases hc : c ∈ m.host_memories_.map Prod.fst
  · obtain ⟨_, m2, _, g1, g2, _⟩ := mem.require_active_spec k m c h hc
    rw [g1] at hr
    cases hr
    exact g2
  · rw [mem.require_active_unsupported k m c h hc] at hr
    cases hr

theorem mem.write_ok_inv (k : build_consts) (m m1 : mem) (w : buffer_write) (h : m.inv k)
    (hr : m.write w = .ok m1) : m1.inv k := by
  obtain ⟨m2, g1, g2, _⟩ := mem.write_inv k m w h
  rw [g1] at hr
  cases hr
  exact g2

/-- Every step of a user keeps the pool consistent. -/
theorem pool.step_inv (k : build_consts) (s s1 : pool) (a : pool_action) (h : s.inv k)
    (hs : s.step k a = some s1) : s1.inv k := by
  cases a with
  | begin_acquire =>
    unfold pool.step at hs
    by_cases hN : s.store.memory_.length = 0
    · simp [hN] at hs
    · simp only [hN, if_false, Option.some.injEq] at hs
      subst hs
      have hlt : s.store.current_idx_ % s.store.memory_.length < s.store.memory_.length :=
        Nat.mod_lt _ (by omega)
      refine ⟨h.sizes, ?_, ?_, h.slots, h.free_clean, ?_⟩
      · intro j hj
        have ho := h.owned j hj
        unfold pool.held at ho ⊢
        show (held_of (s.loans ++ [_])).count j = _
        rw [held_of_append, ho]
        simp [held_of, loaned_mem.holds]
        rfl
      · intro l hl
        simp only [List.mem_append, List.mem_singleton] at hl
        rcases hl with hl | rfl
        · exact h.bounded l hl
        · exact hlt
      · intro l hl hfin m hm
        simp only [List.mem_append, List.mem_singleton] at hl
        rcases hl with hl | rfl
        · exact h.finished_clean l hl hfin m hm
        · cases hfin
  | lock p =>
    unfold pool.step at hs
    cases hl : s.loans[p]? with
    | none => simp [hl] at hs
    | some l =>
      obtain ⟨i, ph⟩ := l
      cases ph with
      | live => simp [hl] at hs
      | finished => simp [hl] at hs
      | blocked =>
        cases hmx : s.store.memory_mutexes_[i]? with
        | none => simp [hl, hmx] at hs
        | some b =>
          cases b with
          | true => simp [hl, hmx] at hs
          | false =>
            simp only [hl, hmx, Option.some.injEq] at hs
            subst hs
            obtain ⟨pre, post, e1, e2, _⟩ := split_at s.loans p _ hl
            rw [e2]
            have hi : i < s.store.memory_.length :=
              h.bounded { idx := i, phase := .blocked } (by rw [e1]; simp)
            have hi2 : i < s.store.memory_mutexes_.length := by rw [h.sizes]; exact hi
            refine ⟨by simpa using h.sizes, ?_, ?_, h.slots, ?_, ?_⟩
            · intro j hj
              have ho := h.owned j hj
              unfold pool.held at ho ⊢
              rw [e1, held_of_split] at ho
              show (held_of (pre ++ _ :: post)).count j = _
              rw [held_of_split]
              by_cases hji : i = j
              · subst hji
                simp [loaned_mem.holds, hmx, hi2] at ho ⊢
                omega
              · simp [loaned_mem.holds, hji, List.getElem?_set] at ho ⊢
                exact ho
            · intro l hl2
              simp only [List.mem_append, List.mem_cons] at hl2
              rcases hl2 with hl2 | rfl | hl2
              · exact h.bounded l (by rw [e1]; simp [hl2])
              · exact hi
              · exact h.bounded l (by rw [e1]; simp [hl2])
            · intro j m hjm hfree
              have hji : i ≠ j := by
                intro e
                subst e
                simp [hi2] at hfree
              have : s.store.memory_mutexes_[j]? = some false := by
                simpa [List.getElem?_set, hji] using hfree
              exact h.free_clean j m hjm this
            · intro l hl2 hfin m hm
              simp only [List.mem_append, List.mem_cons] at hl2
              rcases hl2 with hl2 | rfl | hl2
              · exact h.finished_clean l (by rw [e1]; simp [hl2]) hfin m hm
              · cases hfin
              · exact h.finished_clean l (by rw [e1]; simp [hl2]) hfin m hm
  | require_active p c =>
    unfold pool.step at hs
    cases hl : s.loans[p]? with
    | none => simp [hl] at hs
    | some l =>
      obtain ⟨i, ph⟩ := l
      cases ph with
      | blocked => simp [hl] at hs
      | finished => simp [hl] at hs
      | live =>
        cases hm : s.store.memory_[i]? with
        | none => simp [hl, hm] at hs
        | some m =>
          cases hr : m.require_active k c with
          | error e => simp [hl, hm, hr, pool.update_slot] at hs
          | ok m1 =>
            simp only [hl, hm, hr, pool.update_slot, Option.some.injEq] at hs
            subst hs
            obtain ⟨pre, post, e1, _, _⟩ := split_at s.loans p _ hl
            have hm1 := mem.require_active_ok_inv k m m1 c
              (h.slots m (List.getElem?_mem hm)) hr
            have := pool.inv_set_slot k s h pre post i .live .live e1 (by simp) (by simp)
              m1 hm1 (fun hh => by cases hh)
            rw [← e1] at this
            exact this
  | write p w =>
    unfold pool.step at hs
    cases hl : s.loans[p]? with
    | none => simp [hl] at hs
    | some l =>
      obtain ⟨i, ph⟩ := l
      cases ph with
      | blocked => simp [hl] at hs
      | finished => simp [hl] at hs
      | live =>
        cases hm : s.store.memory_[i]? with
        | none => simp [hl, hm] at hs
        | some m =>
          cases hr : m.write w with
          | error e => simp [hl, hm, hr, pool.update_slot] at hs
          | ok m1 =>
            simp only [hl, hm, hr, pool.update_slot, Option.some.injEq] at hs
            subst hs
            obtain ⟨pre, post, e1, _, _⟩ := split_at s.loans p _ hl
            have hm1 := mem.write_ok_inv k m m1 w (h.slots m (List.getElem?_mem hm)) hr
            have := pool.inv_set_slot k s h pre post i .live .live e1 (by simp) (by simp)
              m1 hm1 (fun hh => by cases hh)
            rw [← e1] at this
            exact this
  | destroy p =>
    unfold pool.step at hs
    cases hl : s.loans[p]? with
    | none => simp [hl] at hs
    | some l =>
      obtain ⟨i, ph⟩ := l
      cases ph with
      | blocked => simp [hl] at hs
      | finished => simp [hl] at hs
      | live =>
        cases hm : s.store.memory_[i]? with
        | none => simp [hl, hm] at hs
        | some m =>
          have hmi := h.slots m (List.getElem?_mem hm)
          obtain ⟨m1, g1, g2, _⟩ := mem.reset_active_inv k m hmi
          obtain ⟨m2, g3, g4⟩ := mem.reset_active_clean k m hmi
          rw [g1] at g3
          cases g3
          simp only [hl, hm, g1, pool.update_slot, Option.map_some', Option.some.injEq] at hs
          subst hs
          obtain ⟨pre, post, e1, e2, _⟩ := split_at s.loans p _ hl
          have := pool.inv_set_slot k s h pre post i .live .finished e1 (by simp) (by simp)
            m1 g2 (fun _ => g4)
          rw [← e2] at this
          exact this
  | unlock p =>
    unfold pool.step at hs
    cases hl : s.loans[p]? with
    | none => simp [hl] at hs
    | some l =>
      obtain ⟨i, ph⟩ := l
      cases ph with
      | blocked => simp [hl] at hs
      | live => simp [hl] at hs
      | finished =>
        simp only [hl, Option.some.injEq] at hs
        subst hs
        obtain ⟨pre, post, e1, _, e3⟩ := split_at s.loans p _ hl
        rw [e3]
        obtain ⟨hi, hmx, hpre, hpost⟩ := pool.holder_facts k s h pre post
          { idx := i, phase := .finished } e1 (by simp [loaned_mem.holds])
        simp only at hi hmx hpre hpost
        have hi2 : i < s.store.memory_mutexes_.length := by rw [h.sizes]; exact hi
        refine ⟨by simpa using h.sizes, ?_, ?_, h.slots, ?_, ?_⟩
        · intro j hj
          have ho := h.owned j hj
          unfold pool.held at ho ⊢
          rw [e1, held_of_split] at ho
          show (held_of (pre ++ post)).count j = _
          rw [held_of_append]
          by_cases hji : i = j
          · subst hji
            simp [hi2, hpre, hpost]
          · simp [loaned_mem.holds, hji, List.getElem?_set] at ho ⊢
            exact ho
        · intro l hl2
          simp only [List.mem_append] at hl2
          rcases hl2 with hl2 | hl2
          · exact h.bounded l (by rw [e1]; simp [hl2])
          · exact h.bounded l (by rw [e1]; simp [hl2])
        · intro j m hjm hfree
          by_cases hji : i = j
          · subst hji
            exact h.finished_clean { idx := i, phase := .finished } (by rw [e1]; simp) rfl
              m hjm
          · have : s.store.memory_mutexes_[j]? = some false := by
              simpa [List.getElem?_set, hji] using hfree
            exact h.free_clean j m hjm this
        · intro l hl2 hfin m hm
          simp only [List.mem_append] at hl2
          rcases hl2 with hl2 | hl2
          · exact h.finished_clean l (by rw [e1]; simp [hl2]) hfin m hm
          · exact h.finished_clean l (by rw [e1]; simp [hl2]) hfin m hm

theorem split_at_length {α : Type} (l : List α) :
    ∀ (p : Nat) (a : α), l[p]? = some a →
      ∃ pre post, l = pre ++ a :: post ∧ pre.length = p := by
  induction l with
  | nil => intro p a h; simp at h
  | cons x xs ih =>
    intro p a h
    cases p with
    | zero =>
      simp only [List.getElem?_cons_zero, Option.some.injEq] at h
      subst h
      exact ⟨[], xs, rfl, rfl⟩
    | succ p =>
      simp only [List.getElem?_cons_succ] at h
      obtain ⟨pre, post, e1, e2⟩ := ih p a h
      exact ⟨x :: pre, post, by rw [e1]; rfl, by simp [e2]⟩

theorem mem_init_device (k : build_consts) (stop_count route_count max_add_starts : Nat)
    (cpd : Int) (device_id : Nat) (n : Nat) (m : mem)
    (h : m ∈ init_device k stop_count route_count max_add_starts cpd device_id n) :
    m = mem.ctor k stop_count route_count max_add_starts device_id cpd := by
  induction n with
  | zero => simp [init_device] at h
  | succ n ih =>
    simp only [init_device, List.mem_cons] at h
    rcases h with h | h
    · exact h
    · exact ih h

theorem mem_init_devices (k : build_consts) (stop_count route_count max_add_starts : Nat)
    (cpd : Int) (n : Nat) :
    ∀ (device_id : Nat) (m : mem),
      m ∈ init_devices k stop_count route_count max_add_starts cpd device_id n →
      ∃ d, m = mem.ctor k stop_count route_count max_add_starts d cpd := by
  induction n with
  | zero => intro d m h; simp [init_devices] at h
  | succ n ih =>
    intro d m h
    simp only [init_devices, List.mem_append] at h
    rcases h with h | h
    · exact ⟨d, mem_init_device k stop_count route_count max_add_starts cpd d _ m h⟩
    · exact ih (d + 1) m h

/-- The number of slots is `device_count * concurrency_per_device`. -/
theorem init_devices_length (k : build_consts) (stop_count route_count max_add_starts : Nat)
    (cpd : Int) (n : Nat) :
    ∀ device_id,
      (init_devices k stop_count route_count max_add_starts cpd device_id n).length
        = n * cpd.toNat := by
  have hdev : ∀ d j, (init_device k stop_count route_count max_add_starts cpd d j).length
      = j := by
    intro d j
    induction j with
    | zero => rfl
    | succ j ih => simp [init_device, ih]
  induction n with
  | zero => intro d; simp [init_devices]
  | succ n ih =>
    intro d
    simp only [init_devices, List.length_append, hdev, ih]
    rw [Nat.succ_mul]
    omega

/-- The pool is consistent after `init`. -/
theorem pool.start_inv (k : build_consts) (stop_count route_count max_add_starts : Nat)
    (device_count cpd : Int) :
    (pool.start k stop_count route_count max_add_starts device_count cpd).inv k := by
  have hmem : ∀ m ∈ (pool.start k stop_count route_count max_add_starts device_count
      cpd).store.memory_, ∃ d, m = mem.ctor k stop_count route_count max_add_starts d cpd := by
    intro m hm
    have : m ∈ init_devices k stop_count route_count max_add_starts cpd 0
        device_count.toNat := by
      simpa [pool.start, memory_store.init, memory_store.empty] using hm
    exact mem_init_devices k stop_count route_count max_add_starts cpd _ 0 m this
  refine ⟨?_, ?_, ?_, ?_, ?_, ?_⟩
  · simp [pool.start, memory_store.init]
  · intro i hi
    have hmx : (pool.start k stop_count route_count max_add_starts device_count
        cpd).store.memory_mutexes_[i]? = some false := by
      show (List.replicate _ false)[i]? = some false
      rw [List.getElem?_replicate]
      exact if_pos hi
    rw [hmx]
    simp [pool.held, held_of, pool.start]
  · intro l hl
    simp [pool.start] at hl
  · intro m hm
    obtain ⟨d, rfl⟩ := hmem m hm
    exact (mem.ctor_inv k stop_count route_count max_add_starts d cpd).1
  · intro i m hm _
    obtain ⟨d, rfl⟩ := hmem m (List.getElem?_mem hm)
    exact mem.ctor_clean k stop_count route_count max_add_starts d cpd
  · intro l hl
    simp [pool.start] at hl

theorem pool.reachable_consistent (k : build_consts) (s0 s : pool) (h0 : s0.inv k)
    (hr : pool.reachable k s0 s) : s.inv k := by
  induction hr with
  | start => exact h0
  | step a _ hs ih => exact pool.step_inv k _ _ a ih hs

theorem pool.run_reachable (k : build_consts) (s0 : pool) (as : List pool_action) :
    ∀ s s1 : pool, pool.reachable k s0 s → pool.run k s as = some s1 →
      pool.reachable k s0 s1 := by
  induction as with
  | nil =>
    intro s s1 hr h
    simp only [pool.run, Option.some.injEq] at h
    rw [← h]
    exact hr
  | cons a as ih =>
    intro s s1 hr h
    cases hs : s.step k a with
    | none => simp [pool.run, hs] at h
    | some s2 =>
      simp only [pool.run, hs, Option.some_bind] at h
      exact ih s2 s1 (pool.reachable.step a hr hs) h

/-- In a consistent pool two loans at different positions that both hold a
slot hold different slots. -/
theorem pool.inv_exclusive (k : build_consts) (s : pool) (h : s.inv k)
    (p q : Nat) (l1 l2 : loaned_mem) (hpq : p ≠ q) (h1 : s.loans[p]? = some l1)
    (h2 : s.loans[q]? = some l2) (hh1 : l1.holds = true) (hh2 : l2.holds = true) :
    l1.idx ≠ l2.idx := by
  obtain ⟨pre, post, e1, e2⟩ := split_at_length s.loans p l1 h1
  obtain ⟨_, _, hpre, hpost⟩ := pool.holder_facts k s h pre post l1 e1 hh1
  intro e
  rw [e1] at h2
  rcases Nat.lt_or_ge q pre.length with hq | hq
  · rw [List.getElem?_append_left hq] at h2
    have := held_of_mem pre l2 (List.getElem?_mem h2) hh2
    rw [← e] at this
    omega
  · rw [List.getElem?_append_right hq] at h2
    have hq2 : q - pre.length = (q - pre.length - 1) + 1 := by omega
    rw [hq2, List.getElem?_cons_succ] at h2
    have := held_of_mem post l2 (List.getElem?_mem h2) hh2
    rw [← e] at this
    omega

theorem pool.inv_held_nodup (k : build_consts) (s : pool) (h : s.inv k) : s.held.Nodup := by
  rw [List.nodup_iff_count_le_one]
  intro i
  rcases Nat.lt_or_ge i s.store.memory_.length with hi | hi
  · rw [h.owned i hi]
    split <;> omega
  · have : i ∉ s.held := by
      intro hm
      unfold pool.held held_of at hm
      rw [List.mem_map] at hm
      obtain ⟨l, hl, rfl⟩ := hm
      have := h.bounded l (List.mem_filter.mp hl).1
      omega
    rw [List.count_eq_zero_of_not_mem this]
    omega

/-- C9: in every state of the pool reachable from `init` by steps of its
users (a constructor takes the next round-robin index and proceeds only when
the mutex of that slot is free; the destructor runs `reset_active`, drains the
stream and only then frees the mutex), no two loans that hold a slot hold the
same slot; every slot whose mutex is free has `is_reset_ = true` and clean
active buffers; hence every constructor that obtains its mutex starts on a
freshly reset slot; and the destructor of a live loan never fails. -/
theorem pool_exclusive_and_reset (k : build_consts)
    (stop_count route_count max_add_starts : Nat) (device_count cpd : Int) (s : pool)
    (hr : pool.reachable k
      (pool.start k stop_count route_count max_add_starts device_count cpd) s) :
    (∀ (p q : Nat) (l1 l2 : loaned_mem), p ≠ q → s.loans[p]? = some l1 →
      s.loans[q]? = some l2 → l1.holds = true → l2.holds = true → l1.idx ≠ l2.idx) ∧
    s.held.Nodup ∧
    (∀ (i : Nat) (m : mem), s.store.memory_[i]? = some m →
      s.store.memory_mutexes_[i]? = some false → m.is_reset_ = true ∧ m.clean k) ∧
    (∀ (p : Nat) (s1 : pool), s.step k (.lock p) = some s1 →
      ∃ i m, s.store.memory_mutexes_[i]? = some false ∧
        s1.loans[p]? = some { idx := i, phase := .live } ∧
        s1.store.memory_[i]? = some m ∧ m.is_reset_ = true ∧ m.clean k) ∧
    (∀ (p i : Nat), s.loans[p]? = some { idx := i, phase := .live } →
      ∃ s1, s.step k (.destroy p) = some s1) := by
  have h := pool.reachable_consistent k _ s
    (pool.start_inv k stop_count route_count max_add_starts device_count cpd) hr
  refine ⟨fun p q l1 l2 => pool.inv_exclusive k s h p q l1 l2, pool.inv_held_nodup k s h,
    ?_, ?_, ?_⟩
  · intro i m hm hfree
    have := h.free_clean i m hm hfree
    exact ⟨this.1, this⟩
  · intro p s1 hs
    unfold pool.step at hs
    cases hl : s.loans[p]? with
    | none => simp [hl] at hs
    | some l =>
      obtain ⟨i, ph⟩ := l
      cases ph with
      | live => simp [hl] at hs
      | finished => simp [hl] at hs
      | blocked =>
        cases hmx : s.store.memory_mutexes_[i]? with
        | none => simp [hl, hmx] at hs
        | some b =>
          cases b with
          | true => simp [hl, hmx] at hs
          | false =>
            simp only [hl, hmx, Option.some.injEq] at hs
            subst hs
            have hi : i < s.store.memory_.length :=
              h.bounded { idx := i, phase := .blocked } (List.getElem?_mem hl)
            have hp : p < s.loans.length := by
              rcases Nat.lt_or_ge p s.loans.length with hh | hh
              · exact hh
              · rw [List.getElem?_eq_none hh] at hl; cases hl
            have hclean := h.free_clean i s.store.memory_[i]
              (List.getElem?_eq_getElem hi) hmx
            exact ⟨i, s.store.memory_[i], hmx, by simp [hp],
              List.getElem?_eq_getElem hi, hclean.1, hclean⟩
  · intro p i hl
    have hi : i < s.store.memory_.length :=
      h.bounded { idx := i, phase := .live } (List.getElem?_mem hl)
    obtain ⟨m1, g1, _⟩ := mem.reset_active_clean k s.store.memory_[i]
      (h.slots _ (List.getElem_mem hi))
    unfold pool.step
    simp [hl, List.getElem?_eq_getElem hi, g1, pool.update_slot]

theorem sample_pool_run :
    pool.run sample_consts sample_pool (sample_four_acquired ++ sample_release_and_fifth)
      = some sample_pool_final := by
  rfl

/-- C9 (witness): 2 devices x 2 slots.  Five threads ask, four obtain the
slots 0 to 3 and the fifth, sent to slot 0 again, cannot proceed; after the
holder of slot 0 has run a query and released, the fifth obtains slot 0 and
the four loans hold the slots 1, 2, 3, 0. -/
theorem pool_exclusive_and_reset_witness :
    ((pool.run sample_consts sample_pool sample_four_acquired).bind
      fun s => s.step sample_consts (.lock 4)) = none ∧
    sample_pool_final.held = [1, 2, 3, 0] ∧
    sample_pool_final.held.Nodup :=
  ⟨by decide, by decide,
    (pool_exclusive_and_reset sample_consts 1 1 1 2 2 sample_pool_final
      (pool.run_reachable sample_consts sample_pool _ sample_pool sample_pool_final
        pool.reachable.start sample_pool_run)).2.1⟩

/-- Whatever the width of `mem_idx`, the counter at its largest value is 0
after the call, not one more. -/
theorem get_mem_idx_wraps_any_width (k : build_consts) (s : memory_store)
    (h : s.current_idx_ + 1 = 2 ^ k.mem_idx_bits) :
    (s.get_mem_idx k).2.current_idx_ = 0 := by
  show (s.current_idx_ + 1) % 2 ^ k.mem_idx_bits = 0
  rw [h]
  exact Nat.mod_self _
